import Mathlib

set_option maxRecDepth 4000

/-!
A shallow embedding of the chess engine of `src/ChessEngine.py` and of the
move search of `src/ChessAI.py`.

Board cells are the two-character strings of the source ("--" for an empty
square, "WK" for the white king, and so on); the board is the 8x8 nested
list.  Python list indexing, including the wrap-around of small negative
indices, is modelled by `pyIdx` / `lgetN` / `lsetN`; reads past the end of a
list (a Python `IndexError`, never reached by the engine on well-formed
states) return a junk default value.
-/

def pyIdx (n : Nat) (i : Int) : Nat :=
  if 0 ≤ i then i.toNat else n - (-i).toNat

def lgetN {α : Type} (d : α) : List α → Nat → α
  | [], _ => d
  | a :: _, 0 => a
  | _ :: t, n + 1 => lgetN d t n

def lsetN {α : Type} : List α → Nat → α → List α
  | [], _, _ => []
  | _ :: t, 0, v => v :: t
  | a :: t, n + 1, v => a :: lsetN t n v

abbrev Cell := String

abbrev Board := List (List Cell)

def lget {α : Type} (d : α) (l : List α) (i : Int) : α :=
  lgetN d l (pyIdx l.length i)

def bget (b : Board) (r c : Int) : Cell :=
  lget "" (lget [] b r) c

def bset (b : Board) (r c : Int) (v : Cell) : Board :=
  let row := lget [] b r
  lsetN b (pyIdx b.length r) (lsetN row (pyIdx row.length c) v)

/-- `s[i]` on a Python string (the engine only ever indexes the
two-character cell strings, so the junk default is never reached). -/
def charAt (s : Cell) (i : Nat) : Char := lgetN ' ' s.data i

/-- Python truthiness of a string: nonempty strings are truthy. -/
def pyTruthy (s : Cell) : Bool := !s.isEmpty

def onBoard (r c : Int) : Prop := 0 ≤ r ∧ r < 8 ∧ 0 ≤ c ∧ c < 8

instance (r c : Int) : Decidable (onBoard r c) := by
  unfold onBoard; infer_instance

def BoardWF (b : Board) : Prop :=
  b.length = 8 ∧ ∀ row ∈ b, row.length = 8

instance (b : Board) : Decidable (BoardWF b) := by
  unfold BoardWF; infer_instance

/-- Pin and check descriptors: (row, column, direction-row, direction-column),
exactly the 4-tuples of `checkForPinsAndChecks`. -/
abbrev Pin := Int × Int × Int × Int

structure CastleRights where
  WKs : Bool
  BKs : Bool
  WQs : Bool
  BQs : Bool
deriving DecidableEq

structure Move where
  startRow : Int
  startColumn : Int
  endRow : Int
  endColumn : Int
  movedPiece : Cell
  capturedPiece : Cell
  moveID : Int
  isPawnPromotion : Bool
  isEnPassant : Bool
  isCastleMove : Bool
deriving DecidableEq

instance : Inhabited Move := ⟨⟨0, 0, 0, 0, "", "", 0, false, false, false⟩⟩

structure ChessGame where
  ChessBoard : Board
  whiteToMove : Bool
  moveLog : List Move
  WK_Location : Int × Int
  BK_Location : Int × Int
  checkmate : Bool
  stalemate : Bool
  pins : List Pin
  checks : List Pin
  inCheckByPiece : Bool
  enPassantPossible : Option (Int × Int)
  currentCastleRight : CastleRights
  castleRightsLog : List CastleRights
deriving DecidableEq

/-- `Move.__init__`: the moved and captured pieces are snapshots of the board
at construction time; for an en-passant move the captured piece is the enemy
pawn; `moveID` is the decimal encoding of the four coordinates. -/
def mkMove (startingSquare endingSquare : Int × Int) (gs : ChessGame)
    (isPawnPromotion isEnPassantMove isCastleMove : Bool) : Move :=
  let startRow := startingSquare.1
  let startColumn := startingSquare.2
  let endRow := endingSquare.1
  let endColumn := endingSquare.2
  let movedPiece := bget gs.ChessBoard startRow startColumn
  let capturedPiece0 := bget gs.ChessBoard endRow endColumn
  let capturedPiece :=
    if isEnPassantMove then (if movedPiece = "WP" then "BP" else "WP") else capturedPiece0
  { startRow := startRow, startColumn := startColumn,
    endRow := endRow, endColumn := endColumn,
    movedPiece := movedPiece, capturedPiece := capturedPiece,
    moveID := startRow * 1000 + endRow * 100 + startColumn * 10 + endColumn,
    isPawnPromotion := isPawnPromotion, isEnPassant := isEnPassantMove,
    isCastleMove := isCastleMove }

/-- `Move.__eq__`: equality is decided by `moveID` alone. -/
def moveEq (a b : Move) : Bool := a.moveID == b.moveID

/-- `ChessGame.updateCastleRights`. -/
def updateCastleRights (cr : CastleRights) (move : Move) : CastleRights :=
  if move.movedPiece = "WR" then
    if move.startRow = 7 then
      if move.startColumn = 0 then { cr with WQs := false }
      else if move.startColumn = 7 then { cr with WKs := false }
      else cr
    else cr
  else if move.movedPiece = "BR" then
    if move.startRow = 0 then
      if move.startColumn = 0 then { cr with BQs := false }
      else if move.startColumn = 7 then { cr with BKs := false }
      else cr
    else cr
  else if move.movedPiece = "WK" then { cr with WKs := false, WQs := false }
  else if move.movedPiece = "BK" then { cr with BKs := false, BQs := false }
  else cr

/-- `ChessGame.processMove`, step by step in the order of the source. -/
def processMove (gs0 : ChessGame) (move : Move) : ChessGame :=
  let gs1 :=
    if move.movedPiece = "WK" then { gs0 with WK_Location := (move.endRow, move.endColumn) }
    else if move.movedPiece = "BK" then { gs0 with BK_Location := (move.endRow, move.endColumn) }
    else gs0
  let board1 := bset gs1.ChessBoard move.startRow move.startColumn "--"
  let board2 := bset board1 move.endRow move.endColumn move.movedPiece
  let gs2 := { gs1 with ChessBoard := board2, moveLog := gs1.moveLog ++ [move], whiteToMove := !gs1.whiteToMove }
  let gs3 :=
    if charAt move.movedPiece 1 = 'P' ∧ (move.startRow - move.endRow).natAbs = 2 then
      { gs2 with enPassantPossible := some (Int.fdiv (move.startRow + move.endRow) 2, move.endColumn) }
    else { gs2 with enPassantPossible := none }
  let gs4 :=
    if move.isEnPassant then
      { gs3 with ChessBoard := bset gs3.ChessBoard move.startRow move.endColumn "--" }
    else gs3
  let gs5 :=
    if move.isPawnPromotion then
      let promoBoard := bset gs4.ChessBoard move.endRow move.endColumn (String.mk [charAt move.movedPiece 0, 'Q'])
      { gs4 with ChessBoard := promoBoard }
    else gs4
  let gs6 :=
    if move.isCastleMove then
      if move.endColumn - move.startColumn = 2 then
        let ksBoard :=
          bset (bset gs5.ChessBoard move.endRow (move.endColumn - 1)
                  (bget gs5.ChessBoard move.endRow (move.endColumn + 1)))
            move.endRow (move.endColumn + 1) "--"
        { gs5 with ChessBoard := ksBoard }
      else
        let qsBoard :=
          bset (bset gs5.ChessBoard move.endRow (move.endColumn + 1)
                  (bget gs5.ChessBoard move.endRow (move.endColumn - 2)))
            move.endRow (move.endColumn - 2) "--"
        { gs5 with ChessBoard := qsBoard }
    else gs5
  let newRights := updateCastleRights gs6.currentCastleRight move
  { gs6 with currentCastleRight := newRights, castleRightsLog := gs6.castleRightsLog ++ [newRights] }

/-- `ChessGame.undoMove`.  The `checkmate`/`stalemate` resets sit outside the
`if len(self.moveLog) != 0` guard in the source, so they happen on both
branches. -/
def undoMove (gs0 : ChessGame) : ChessGame :=
  let gsA := if gs0.moveLog.length ≠ 0 then
    let previousMove := gs0.moveLog.getLast?.getD default
    let gs1 := { gs0 with moveLog := gs0.moveLog.dropLast }
    let gs2 :=
      if previousMove.movedPiece = "WK" then
        { gs1 with WK_Location := (previousMove.startRow, previousMove.startColumn) }
      else if previousMove.movedPiece = "BK" then
        { gs1 with BK_Location := (previousMove.startRow, previousMove.startColumn) }
      else gs1
    let board1 := bset gs2.ChessBoard previousMove.startRow previousMove.startColumn previousMove.movedPiece
    let board2 := bset board1 previousMove.endRow previousMove.endColumn previousMove.capturedPiece
    let gs3 := { gs2 with ChessBoard := board2, whiteToMove := !gs2.whiteToMove }
    let gs4 :=
      if previousMove.isEnPassant then
        let epBoard :=
          bset (bset gs3.ChessBoard previousMove.endRow previousMove.endColumn "--")
            previousMove.startRow previousMove.endColumn previousMove.capturedPiece
        { gs3 with ChessBoard := epBoard, enPassantPossible := some (previousMove.endRow, previousMove.endColumn) }
      else gs3
    let gs5 :=
      if charAt previousMove.movedPiece 1 = 'P' ∧ (previousMove.startRow - previousMove.endRow).natAbs = 2 then
        { gs4 with enPassantPossible := none }
      else gs4
    let gs6 := { gs5 with castleRightsLog := gs5.castleRightsLog.dropLast }
    let gs7 := { gs6 with currentCastleRight := (gs6.castleRightsLog.getLast?).getD ⟨true, true, true, true⟩ }
    let gs8 :=
      if previousMove.isCastleMove then
        if previousMove.endColumn - previousMove.startColumn = 2 then
          let ksBoard :=
            bset (bset gs7.ChessBoard previousMove.endRow (previousMove.endColumn + 1)
                    (bget gs7.ChessBoard previousMove.endRow (previousMove.endColumn - 1)))
              previousMove.endRow (previousMove.endColumn - 1) "--"
          { gs7 with ChessBoard := ksBoard }
        else
          let qsBoard :=
            bset (bset gs7.ChessBoard previousMove.endRow (previousMove.endColumn - 2)
                    (bget gs7.ChessBoard previousMove.endRow (previousMove.endColumn + 1)))
              previousMove.endRow (previousMove.endColumn + 1) "--"
          { gs7 with ChessBoard := qsBoard }
      else gs7
    gs8
  else gs0
  { gsA with checkmate := false, stalemate := false }

/-- The board built by `ChessGame.__init__` in the source (the standard
starting position is commented out there; this three-piece test position is
the one actually assigned). -/
def initialBoard : Board := [
  ["--", "--", "--", "BK", "--", "--", "--", "--"],
  ["--", "--", "--", "--", "--", "--", "--", "--"],
  ["--", "--", "--", "WK", "--", "--", "--", "WQ"],
  ["--", "--", "--", "--", "--", "--", "--", "--"],
  ["--", "--", "--", "--", "--", "--", "--", "--"],
  ["--", "--", "--", "--", "--", "--", "--", "--"],
  ["--", "--", "--", "--", "--", "--", "--", "--"],
  ["--", "--", "--", "--", "--", "--", "--", "--"]]

/-- The standard chess starting position, as the spec describes `newGame()`
(it also appears, commented out, in `ChessGame.__init__`). -/
def standardBoard : Board := [
  ["BR", "BN", "BB", "BQ", "BK", "BB", "BN", "BR"],
  ["BP", "BP", "BP", "BP", "BP", "BP", "BP", "BP"],
  ["--", "--", "--", "--", "--", "--", "--", "--"],
  ["--", "--", "--", "--", "--", "--", "--", "--"],
  ["--", "--", "--", "--", "--", "--", "--", "--"],
  ["--", "--", "--", "--", "--", "--", "--", "--"],
  ["WP", "WP", "WP", "WP", "WP", "WP", "WP", "WP"],
  ["WR", "WN", "WB", "WQ", "WK", "WB", "WN", "WR"]]

/-- `ChessGame.__init__`: the freshly constructed game state. -/
def initialGame : ChessGame :=
  { ChessBoard := initialBoard,
    whiteToMove := true,
    moveLog := [],
    WK_Location := (7, 4),
    BK_Location := (0, 4),
    checkmate := false,
    stalemate := false,
    pins := [],
    checks := [],
    inCheckByPiece := false,
    enPassantPossible := none,
    currentCastleRight := ⟨true, true, true, true⟩,
    castleRightsLog := [⟨true, true, true, true⟩] }

/-- States reachable from a fresh game by any sequence of `processMove` and
`undoMove` calls. -/
inductive ReachPU : ChessGame → Prop where
  | init : ReachPU initialGame
  | play (s : ChessGame) (m : Move) : ReachPU s → ReachPU (processMove s m)
  | undo (s : ChessGame) : ReachPU s → ReachPU (undoMove s)

/-- `random.randint(a, b)`: an arbitrary integer in `[a, b]`, modelled by a
seed; raises (here: `none`) when `b < a`, which is exactly Python's
`ValueError: empty range`. -/
def pyRandint (a b : Int) (seed : Nat) : Option Int :=
  if b < a then none else some (a + (seed : Int) % (b - a + 1))

/-- `ChessAI.findRandomMove`: `validMoves[random.randint(0, len(validMoves) - 1)]`. -/
def findRandomMove (validMoves : List Move) (seed : Nat) : Option Move :=
  match pyRandint 0 ((validMoves.length : Int) - 1) seed with
  | none => none
  | some i => some (lget default validMoves i)

/-- Ray directions of `checkForPinsAndChecks`, in source order: indices 0-3
are orthogonal, 4-7 diagonal. -/
def cpcDirections : List (Int × Int) :=
  [(-1, 0), (0, -1), (1, 0), (0, 1), (-1, -1), (-1, 1), (1, -1), (1, 1)]

/-- Knight offsets tested by `checkForPinsAndChecks`. -/
def knightDeltas : List (Int × Int) :=
  [(-2, -1), (-2, 1), (-1, -2), (-1, 2), (1, -2), (1, 2), (2, -1), (2, 1)]

/-- The five-way attacking-piece condition of `checkForPinsAndChecks` for
direction index `i` and distance `j`. -/
def attackCond (enemyColor : Char) (i j : Nat) (piece : Char) : Prop :=
  (i ≤ 3 ∧ piece = 'R') ∨
  (4 ≤ i ∧ i ≤ 7 ∧ piece = 'B') ∨
  (j = 1 ∧ piece = 'P' ∧
    ((enemyColor = 'W' ∧ (i = 6 ∨ i = 7)) ∨ (enemyColor = 'B' ∧ (i = 4 ∨ i = 5)))) ∨
  piece = 'Q' ∨
  (j = 1 ∧ piece = 'K')

instance (ec : Char) (i j : Nat) (p : Char) : Decidable (attackCond ec i j p) := by
  unfold attackCond; infer_instance

/-- One ray of `checkForPinsAndChecks`: walk outward from the king square
carrying the possible pin; returns the pins appended on this ray and the
check found on it, if any.  `fuel` counts the remaining iterations of
`for j in range(1, 8)`.  On an ally non-king piece the possible pin is set
(or, if already set, the ray breaks); on an attacking enemy piece either a
check is recorded (break) or the possible pin is appended and the scan
continues, exactly as in the source; on a non-attacking enemy piece the ray
breaks; otherwise the scan continues. -/
def rayScan (b : Board) (enemyColor allyColor : Char) (startRow startColumn : Int)
    (d : Int × Int) (i : Nat) : Option Pin → Nat → Nat → List Pin × Option Pin
  | _, _, 0 => ([], none)
  | pp, j, fuel + 1 =>
    let endRow := startRow + d.1 * (j : Int)
    let endColumn := startColumn + d.2 * (j : Int)
    if onBoard endRow endColumn then
      let endPiece := bget b endRow endColumn
      if charAt endPiece 0 = allyColor ∧ charAt endPiece 1 ≠ 'K' then
        match pp with
        | none =>
          rayScan b enemyColor allyColor startRow startColumn d i
            (some (endRow, endColumn, d.1, d.2)) (j + 1) fuel
        | some _ => ([], none)
      else if charAt endPiece 0 = enemyColor then
        if attackCond enemyColor i j (charAt endPiece 1) then
          match pp with
          | none => ([], some (endRow, endColumn, d.1, d.2))
          | some p =>
            let rest := rayScan b enemyColor allyColor startRow startColumn d i pp (j + 1) fuel
            (p :: rest.1, rest.2)
        else ([], none)
      else rayScan b enemyColor allyColor startRow startColumn d i pp (j + 1) fuel
    else ([], none)

/-- `ChessGame.checkForPinsAndChecks`: `inCheck` is set exactly when a check
descriptor is recorded, so it equals the non-emptiness of the check list. -/
def checkForPinsAndChecks (gs : ChessGame) : Bool × List Pin × List Pin :=
  let enemyColor := if gs.whiteToMove then 'B' else 'W'
  let allyColor := if gs.whiteToMove then 'W' else 'B'
  let startRow := if gs.whiteToMove then gs.WK_Location.1 else gs.BK_Location.1
  let startColumn := if gs.whiteToMove then gs.WK_Location.2 else gs.BK_Location.2
  let rays := cpcDirections.enum.foldl
    (fun (acc : List Pin × List Pin) idir =>
      let r := rayScan gs.ChessBoard enemyColor allyColor startRow startColumn idir.2 idir.1 none 1 7
      (acc.1 ++ r.1, acc.2 ++ (match r.2 with | none => [] | some c => [c])))
    ([], [])
  let knightChecks := knightDeltas.filterMap
    (fun mv =>
      let endRow := startRow + mv.1
      let endColumn := startColumn + mv.2
      if onBoard endRow endColumn then
        let endPiece := bget gs.ChessBoard endRow endColumn
        if charAt endPiece 0 = enemyColor ∧ charAt endPiece 1 = 'N' then
          some (endRow, endColumn, mv.1, mv.2)
        else none
      else none)
  let checks := rays.2 ++ knightChecks
  (!checks.isEmpty, rays.1, checks)

/-- Python `list.remove`: drop the first equal element. -/
def listRemove {α : Type} [DecidableEq α] : List α → α → List α
  | [], _ => []
  | a :: t, x => if a = x then t else a :: listRemove t x

/-- Python `list.remove` on move lists: removal compares with `Move.__eq__`. -/
def listRemoveMove : List Move → Move → List Move
  | [], _ => []
  | a :: t, x => if moveEq a x then t else a :: listRemoveMove t x

/-- The descending pin scan of `getPawnMoves`: find the highest-index pin
entry at (row, column), record its direction and remove it (`break`).  The
`Nat` argument is the current index plus one. -/
def pawnPinScan (pins : List Pin) (row column : Int) : Nat → Bool × Option (Int × Int) × List Pin
  | 0 => (false, none, pins)
  | i + 1 =>
    let e := lgetN (0, 0, 0, 0) pins i
    if e.1 = row ∧ e.2.1 = column then
      (true, some (e.2.2.1, e.2.2.2), listRemove pins e)
    else pawnPinScan pins row column i

/-- The descending pin scan of `getRookMoves`/`getBishopMoves`: on a match
the pin is recorded; it is removed and the loop broken only when the scanned
piece is not a queen — for a queen the loop keeps going, so a lower-index
match overwrites the recorded direction and nothing is removed. -/
def rbPinScan (isQueen : Bool) (pins : List Pin) (row column : Int) :
    Nat → Bool × Option (Int × Int) × List Pin
  | 0 => (false, none, pins)
  | i + 1 =>
    let e := lgetN (0, 0, 0, 0) pins i
    if e.1 = row ∧ e.2.1 = column then
      if isQueen then
        let rest := rbPinScan isQueen pins row column i
        (true, some (rest.2.1.getD (e.2.2.1, e.2.2.2)), pins)
      else (true, some (e.2.2.1, e.2.2.2), listRemove pins e)
    else rbPinScan isQueen pins row column i

/-- The descending pin scan of `getKnightMoves`: only the pinned flag
matters, the matched entry is removed (`break`). -/
def knightPinScan (pins : List Pin) (row column : Int) : Nat → Bool × List Pin
  | 0 => (false, pins)
  | i + 1 =>
    let e := lgetN (0, 0, 0, 0) pins i
    if e.1 = row ∧ e.2.1 = column then (true, listRemove pins e)
    else knightPinScan pins row column i

/-- `ChessGame.getPawnMoves`.  The mutable `pawnPromotion` local of the
source is threaded through the three blocks (forward, diagonal left,
diagonal right) exactly as assigned there. -/
def getPawnMoves (gs0 : ChessGame) (row column : Int) : List Move × ChessGame :=
  let scan := pawnPinScan gs0.pins row column gs0.pins.length
  let piecePinned := scan.1
  let pinDirection := scan.2.1
  let gs := { gs0 with pins := scan.2.2 }
  let moveAmount : Int := if gs.whiteToMove then -1 else 1
  let startRow : Int := if gs.whiteToMove then 6 else 1
  let backRow : Int := if gs.whiteToMove then 0 else 7
  let enemyColor := if gs.whiteToMove then 'B' else 'W'
  let fwd : List Move × Bool :=
    if bget gs.ChessBoard (row + moveAmount) column = "--" then
      if ¬piecePinned = true ∨ pinDirection = some (moveAmount, 0) then
        let pp1 := if row + moveAmount = backRow then true else false
        let ms1 := [mkMove (row, column) (row + moveAmount, column) gs pp1 false false]
        let ms2 :=
          if row = startRow ∧ bget gs.ChessBoard (row + 2 * moveAmount) column = "--" then
            ms1 ++ [mkMove (row, column) (row + 2 * moveAmount, column) gs false false false]
          else ms1
        (ms2, pp1)
      else ([], false)
    else ([], false)
  let dl : List Move × Bool :=
    if 0 < column then
      if ¬piecePinned = true ∨ pinDirection = some (moveAmount, -1) then
        let cap : List Move × Bool :=
          if charAt (bget gs.ChessBoard (row + moveAmount) (column - 1)) 0 = enemyColor then
            let pp2 := if row + moveAmount = backRow then true else fwd.2
            ([mkMove (row, column) (row + moveAmount, column - 1) gs pp2 false false], pp2)
          else ([], fwd.2)
        let ep :=
          if gs.enPassantPossible = some (row + moveAmount, column - 1) then
            [mkMove (row, column) (row + moveAmount, column - 1) gs false true false]
          else []
        (cap.1 ++ ep, cap.2)
      else ([], fwd.2)
    else ([], fwd.2)
  let dr : List Move :=
    if column < 7 then
      if ¬piecePinned = true ∨ pinDirection = some (moveAmount, 1) then
        let cap : List Move :=
          if charAt (bget gs.ChessBoard (row + moveAmount) (column + 1)) 0 = enemyColor then
            let pp3 := if row + moveAmount = backRow then true else dl.2
            [mkMove (row, column) (row + moveAmount, column + 1) gs pp3 false false]
          else []
        let ep :=
          if gs.enPassantPossible = some (row + moveAmount, column + 1) then
            [mkMove (row, column) (row + moveAmount, column + 1) gs false true false]
          else []
        cap ++ ep
      else []
    else []
  (fwd.1 ++ dl.1 ++ dr, gs)

def rookDirections : List (Int × Int) := [(-1, 0), (0, -1), (1, 0), (0, 1)]

def bishopDirections : List (Int × Int) := [(-1, -1), (-1, 1), (1, -1), (1, 1)]

/-- The inner ray loop shared verbatim by `getRookMoves` and
`getBishopMoves` in the source: walk a direction, emitting a move on an
empty square (continue) or an enemy piece (stop); stop on an own piece or
the board edge.  When the piece is pinned to a different axis nothing is
emitted but the loop keeps running, as in the source (the pin test sits
inside the loop and does not `break`).  `fuel` counts the remaining
iterations of `for i in range(1, 8)`. -/
def slideRay (gs : ChessGame) (row column : Int) (piecePinned : Bool)
    (pinDirection : Option (Int × Int)) (enemyColor : Char) (d : Int × Int) :
    Int → Nat → List Move
  | _, 0 => []
  | i, fuel + 1 =>
    let endRow := row + d.1 * i
    let endColumn := column + d.2 * i
    if onBoard endRow endColumn then
      let endPiece := bget gs.ChessBoard endRow endColumn
      if ¬piecePinned = true ∨ pinDirection = some d ∨ pinDirection = some (-d.1, -d.2) then
        if endPiece = "--" then
          mkMove (row, column) (endRow, endColumn) gs false false false ::
            slideRay gs row column piecePinned pinDirection enemyColor d (i + 1) fuel
        else if charAt endPiece 0 = enemyColor then
          [mkMove (row, column) (endRow, endColumn) gs false false false]
        else []
      else slideRay gs row column piecePinned pinDirection enemyColor d (i + 1) fuel
    else []

/-- `ChessGame.getRookMoves`. -/
def getRookMoves (gs0 : ChessGame) (row column : Int) : List Move × ChessGame :=
  let scan := rbPinScan (charAt (bget gs0.ChessBoard row column) 1 == 'Q')
    gs0.pins row column gs0.pins.length
  let gs := { gs0 with pins := scan.2.2 }
  let enemyColor := if gs.whiteToMove then 'B' else 'W'
  (rookDirections.foldl (fun acc d => acc ++ slideRay gs row column scan.1 scan.2.1 enemyColor d 1 7) [], gs)

/-- `ChessGame.getBishopMoves`. -/
def getBishopMoves (gs0 : ChessGame) (row column : Int) : List Move × ChessGame :=
  let scan := rbPinScan (charAt (bget gs0.ChessBoard row column) 1 == 'Q')
    gs0.pins row column gs0.pins.length
  let gs := { gs0 with pins := scan.2.2 }
  let enemyColor := if gs.whiteToMove then 'B' else 'W'
  (bishopDirections.foldl (fun acc d => acc ++ slideRay gs row column scan.1 scan.2.1 enemyColor d 1 7) [], gs)

/-- `ChessGame.getQueenMoves` = rook moves then bishop moves. -/
def getQueenMoves (gs0 : ChessGame) (row column : Int) : List Move × ChessGame :=
  let r := getRookMoves gs0 row column
  let b := getBishopMoves r.2 row column
  (r.1 ++ b.1, b.2)

def knightDirections : List (Int × Int) :=
  [(-1, 2), (-2, 1), (-1, -2), (-2, -1), (1, 2), (2, 1), (1, -2), (2, -1)]

/-- `ChessGame.getKnightMoves`. -/
def getKnightMoves (gs0 : ChessGame) (row column : Int) : List Move × ChessGame :=
  let scan := knightPinScan gs0.pins row column gs0.pins.length
  let gs := { gs0 with pins := scan.2 }
  let allyColor := if gs.whiteToMove then 'W' else 'B'
  (knightDirections.filterMap (fun d =>
      let endRow := row + d.1
      let endColumn := column + d.2
      if onBoard endRow endColumn then
        if scan.1 = false then
          if charAt (bget gs.ChessBoard endRow endColumn) 0 ≠ allyColor then
            some (mkMove (row, column) (endRow, endColumn) gs false false false)
          else none
        else none
      else none), gs)

def kingDirections : List (Int × Int) :=
  [(-1, 0), (1, 0), (0, -1), (0, 1), (-1, 1), (-1, -1), (1, 1), (1, -1)]

/-- `ChessGame.getKingMoves`: for each candidate square the king location of
the moving side is provisionally set to the candidate, pins and checks are
recomputed, the move is kept only when not in check, and the location is
then restored to `(row, column)` — the square the king was scanned at, not
the cached location. -/
def getKingMoves (gs0 : ChessGame) (row column : Int) : List Move × ChessGame :=
  let allyColor := if gs0.whiteToMove then 'W' else 'B'
  kingDirections.foldl
    (fun (acc : List Move × ChessGame) d =>
      let gs := acc.2
      let endRow := row + d.1
      let endColumn := column + d.2
      if onBoard endRow endColumn then
        let endPiece := bget gs.ChessBoard endRow endColumn
        if charAt endPiece 0 ≠ allyColor then
          let gsProbe :=
            if allyColor = 'W' then { gs with WK_Location := (endRow, endColumn) }
            else { gs with BK_Location := (endRow, endColumn) }
          let probe := checkForPinsAndChecks gsProbe
          let moves' :=
            if probe.1 then acc.1
            else acc.1 ++ [mkMove (row, column) (endRow, endColumn) gsProbe false false false]
          let gsBack :=
            if allyColor = 'W' then { gsProbe with WK_Location := (row, column) }
            else { gsProbe with BK_Location := (row, column) }
          (moves', gsBack)
        else acc
      else acc)
    ([], gs0)

/-- `ChessGame.getAllPossibleMoves`: scan every square, dispatch on the
piece letter for squares owned by the side to move.  The per-piece
generators mutate `self.pins`, so the state is threaded through the scan. -/
def getAllPossibleMoves (gs0 : ChessGame) : List Move × ChessGame :=
  let cells := (List.range gs0.ChessBoard.length).flatMap
    (fun r => (List.range (lgetN [] gs0.ChessBoard r).length).map (fun c => (r, c)))
  cells.foldl
    (fun (acc : List Move × ChessGame) rc =>
      let gs := acc.2
      let row : Int := rc.1
      let column : Int := rc.2
      let turn := charAt (bget gs.ChessBoard row column) 0
      if (turn = 'W' ∧ gs.whiteToMove = true) ∨ (turn = 'B' ∧ gs.whiteToMove = false) then
        let piece := charAt (bget gs.ChessBoard row column) 1
        if piece = 'P' then
          let r := getPawnMoves gs row column
          (acc.1 ++ r.1, r.2)
        else if piece = 'R' then
          let r := getRookMoves gs row column
          (acc.1 ++ r.1, r.2)
        else if piece = 'N' then
          let r := getKnightMoves gs row column
          (acc.1 ++ r.1, r.2)
        else if piece = 'B' then
          let r := getBishopMoves gs row column
          (acc.1 ++ r.1, r.2)
        else if piece = 'Q' then
          let r := getQueenMoves gs row column
          (acc.1 ++ r.1, r.2)
        else if piece = 'K' then
          let r := getKingMoves gs row column
          (acc.1 ++ r.1, r.2)
        else acc
      else acc)
    ([], gs0)

/-- The `validSquaresToBlockOrCapture` loop of the single-check branch:
collect squares along the check direction from the king, stopping once the
checking piece's square is reached.  `fuel` counts the remaining iterations
of `for i in range(1, 8)`. -/
def validSquaresScan (kingRow kingColumn d0 d1 checkRow checkColumn : Int) :
    Int → Nat → List (Int × Int)
  | _, 0 => []
  | i, fuel + 1 =>
    let validSquare := (kingRow + d0 * i, kingColumn + d1 * i)
    if validSquare.1 = checkRow ∧ validSquare.2 = checkColumn then [validSquare]
    else validSquare :: validSquaresScan kingRow kingColumn d0 d1 checkRow checkColumn (i + 1) fuel

/-- The backwards removal loop at the end of the single-check branch of
`getValidMovesAdvanced`: iterate the index downwards over the shrinking
list and `list.remove` (first `Move.__eq__`-equal element) every non-king
move that does not land on a blocking or capturing square.  The `Nat`
argument is the current index plus one. -/
def removeNonBlocking (validSquares : List (Int × Int)) : List Move → Nat → List Move
  | l, 0 => l
  | l, i + 1 =>
    let mv := lgetN default l i
    let l' :=
      if charAt mv.movedPiece 1 ≠ 'K' ∧ ¬((mv.endRow, mv.endColumn) ∈ validSquares) then
        listRemoveMove l mv
      else l
    removeNonBlocking validSquares l' i

/-- `ChessGame.getValidMovesAdvanced`.  Note that it never writes the
`checkmate`/`stalemate` fields. -/
def getValidMovesAdvanced (gs0 : ChessGame) : List Move × ChessGame :=
  let cpc := checkForPinsAndChecks gs0
  let gs := { gs0 with inCheckByPiece := cpc.1, pins := cpc.2.1, checks := cpc.2.2 }
  let kingRow := if gs.whiteToMove then gs.WK_Location.1 else gs.BK_Location.1
  let kingColumn := if gs.whiteToMove then gs.WK_Location.2 else gs.BK_Location.2
  if gs.inCheckByPiece then
    if gs.checks.length = 1 then
      let all := getAllPossibleMoves gs
      let check := lgetN (0, 0, 0, 0) gs.checks 0
      let checkRow := check.1
      let checkColumn := check.2.1
      let pieceCreatingCheck := bget all.2.ChessBoard checkRow checkColumn
      let validSquares :=
        if charAt pieceCreatingCheck 1 = 'N' then [(checkRow, checkColumn)]
        else validSquaresScan kingRow kingColumn check.2.2.1 check.2.2.2 checkRow checkColumn 1 7
      (removeNonBlocking validSquares all.1 all.1.length, all.2)
    else getKingMoves gs kingRow kingColumn
  else getAllPossibleMoves gs

/-- `ChessGame.squareUnderAttack`: flip the side to move, generate all the
opponent's moves, flip back, and test whether any move ends on the square. -/
def squareUnderAttack (gs0 : ChessGame) (row column : Int) : Bool × ChessGame :=
  let gs1 := { gs0 with whiteToMove := !gs0.whiteToMove }
  let opp := getAllPossibleMoves gs1
  let gs2 := { opp.2 with whiteToMove := !opp.2.whiteToMove }
  (opp.1.any (fun mv => mv.endRow == row && mv.endColumn == column), gs2)

/-- `ChessGame.getKingSideCastleMoves` (Python's `and` short-circuits, so
the second attack test runs only when the first square is safe). -/
def getKingSideCastleMoves (gs0 : ChessGame) (row column : Int) (moves : List Move) :
    List Move × ChessGame :=
  if bget gs0.ChessBoard row (column + 1) = "--" ∧ bget gs0.ChessBoard row (column + 2) = "--" then
    let a1 := squareUnderAttack gs0 row (column + 1)
    if a1.1 then (moves, a1.2)
    else
      let a2 := squareUnderAttack a1.2 row (column + 2)
      if a2.1 then (moves, a2.2)
      else (moves ++ [mkMove (row, column) (row, column + 2) a2.2 false false true], a2.2)
  else (moves, gs0)

/-- `ChessGame.getQueenSideCastleMoves`, including the truth test of the
cell three files over (`self.ChessBoard[row][column - 3]` used as a bare
condition). -/
def getQueenSideCastleMoves (gs0 : ChessGame) (row column : Int) (moves : List Move) :
    List Move × ChessGame :=
  if bget gs0.ChessBoard row (column - 1) = "--" ∧ bget gs0.ChessBoard row (column - 2) = "--" ∧
      pyTruthy (bget gs0.ChessBoard row (column - 3)) = true then
    let a1 := squareUnderAttack gs0 row (column - 1)
    if a1.1 then (moves, a1.2)
    else
      let a2 := squareUnderAttack a1.2 row (column - 2)
      if a2.1 then (moves, a2.2)
      else (moves ++ [mkMove (row, column) (row, column - 2) a2.2 false false true], a2.2)
  else (moves, gs0)

/-- For the comparison in C5: the same queen-side generation with the
always-true rook test dropped, keeping only the emptiness and attack
conditions the claim names. -/
def getQueenSideCastleMovesNoRookTest (gs0 : ChessGame) (row column : Int) (moves : List Move) :
    List Move × ChessGame :=
  if bget gs0.ChessBoard row (column - 1) = "--" ∧ bget gs0.ChessBoard row (column - 2) = "--" then
    let a1 := squareUnderAttack gs0 row (column - 1)
    if a1.1 then (moves, a1.2)
    else
      let a2 := squareUnderAttack a1.2 row (column - 2)
      if a2.1 then (moves, a2.2)
      else (moves ++ [mkMove (row, column) (row, column - 2) a2.2 false false true], a2.2)
  else (moves, gs0)

/-- `ChessGame.getCastleMoves`. -/
def getCastleMoves (gs0 : ChessGame) (row column : Int) (moves : List Move) :
    List Move × ChessGame :=
  let a := squareUnderAttack gs0 row column
  if a.1 then (moves, a.2)
  else
    let gs := a.2
    let ks :=
      if (gs.currentCastleRight.WKs = true ∧ gs.whiteToMove = true) ∨
          (gs.currentCastleRight.BKs = true ∧ gs.whiteToMove = false) then
        getKingSideCastleMoves gs row column moves
      else (moves, gs)
    if (ks.2.currentCastleRight.WQs = true ∧ ks.2.whiteToMove = true) ∨
        (ks.2.currentCastleRight.BQs = true ∧ ks.2.whiteToMove = false) then
      getQueenSideCastleMoves ks.2 row column ks.1
    else ks

/-- The back-rank mate fixture of the spec: white king a1, black queen a2,
black rook b2, white to move (black king tucked on h8), with consistent
king-location caches. -/
def mateGame : ChessGame :=
  { ChessBoard := [
      ["--", "--", "--", "--", "--", "--", "--", "BK"],
      ["--", "--", "--", "--", "--", "--", "--", "--"],
      ["--", "--", "--", "--", "--", "--", "--", "--"],
      ["--", "--", "--", "--", "--", "--", "--", "--"],
      ["--", "--", "--", "--", "--", "--", "--", "--"],
      ["--", "--", "--", "--", "--", "--", "--", "--"],
      ["BQ", "BR", "--", "--", "--", "--", "--", "--"],
      ["WK", "--", "--", "--", "--", "--", "--", "--"]],
    whiteToMove := true,
    moveLog := [],
    WK_Location := (7, 0),
    BK_Location := (0, 7),
    checkmate := false,
    stalemate := false,
    pins := [],
    checks := [],
    inCheckByPiece := false,
    enPassantPossible := none,
    currentCastleRight := ⟨true, true, true, true⟩,
    castleRightsLog := [⟨true, true, true, true⟩] }

/-- The cached white king location is consistent with the board: an in-range
cell holds a piece with colour 'W' and kind 'K' exactly at the cached
square. -/
def WKCons (s : ChessGame) : Prop :=
  ∀ r : Nat, r < 8 → ∀ c : Nat, c < 8 →
    ((charAt (bget s.ChessBoard r c) 0 = 'W' ∧ charAt (bget s.ChessBoard r c) 1 = 'K') ↔
      ((r : Int), (c : Int)) = s.WK_Location)

instance (s : ChessGame) : Decidable (WKCons s) := by
  unfold WKCons; infer_instance

/-- The cached black king location is consistent with the board. -/
def BKCons (s : ChessGame) : Prop :=
  ∀ r : Nat, r < 8 → ∀ c : Nat, c < 8 →
    ((charAt (bget s.ChessBoard r c) 0 = 'B' ∧ charAt (bget s.ChessBoard r c) 1 = 'K') ↔
      ((r : Int), (c : Int)) = s.BK_Location)

instance (s : ChessGame) : Decidable (BKCons s) := by
  unfold BKCons; infer_instance

/-- The king-location cache of the side to move is consistent with the
board. -/
def KingConsistent (s : ChessGame) : Prop :=
  if s.whiteToMove then WKCons s else BKCons s

instance (s : ChessGame) : Decidable (KingConsistent s) := by
  unfold KingConsistent; infer_instance

/-- Every `Move` built by `Move.__init__` satisfies this: the coordinates the
callers pass are board coordinates in `[0, 8)` and `moveID` is the value the
constructor computes from them. -/
def MoveWF (m : Move) : Prop :=
  0 ≤ m.startRow ∧ m.startRow < 8 ∧ 0 ≤ m.startColumn ∧ m.startColumn < 8 ∧
  0 ≤ m.endRow ∧ m.endRow < 8 ∧ 0 ≤ m.endColumn ∧ m.endColumn < 8 ∧
  m.moveID = m.startRow * 1000 + m.endRow * 100 + m.startColumn * 10 + m.endColumn

instance (m : Move) : Decidable (MoveWF m) := by
  unfold MoveWF; infer_instance

/-- No pawn stands on the board (true of the fixture board the constructor
installs, and preserved by play since promotion writes queens and no
generator can create a pawn). -/
def noPawns (b : Board) : Prop :=
  ∀ r : Nat, r < 8 → ∀ c : Nat, c < 8 → charAt (bget b r c) 1 ≠ 'P'

instance (b : Board) : Decidable (noPawns b) := by
  unfold noPawns; infer_instance

/-- Shape of every move the advanced query produces on a pawn-free board:
in-range coordinates, piece snapshots taken from the board by
`Move.__init__`, and all three flags clear (the pawn generator is never
dispatched and the advanced query never calls the castle generators). -/
def moveFrom (b : Board) (m : Move) : Prop :=
  onBoard m.startRow m.startColumn ∧ onBoard m.endRow m.endColumn ∧
  m.movedPiece = bget b m.startRow m.startColumn ∧
  m.capturedPiece = bget b m.endRow m.endColumn ∧
  m.isPawnPromotion = false ∧ m.isEnPassant = false ∧ m.isCastleMove = false

/-- The state invariant maintained by the engine from the fresh game through
queries, applied legal moves and undos. -/
structure EngineInv (s : ChessGame) : Prop where
  wf : BoardWF s.ChessBoard
  np : noPawns s.ChessBoard
  ep : s.enPassantPossible = none
  lens : s.castleRightsLog.length = s.moveLog.length + 1
  logTop : s.castleRightsLog.getLast? = some s.currentCastleRight
  wkR : onBoard s.WK_Location.1 s.WK_Location.2
  bkR : onBoard s.BK_Location.1 s.BK_Location.2
  logOk : ∀ m ∈ s.moveLog, onBoard m.startRow m.startColumn ∧ onBoard m.endRow m.endColumn ∧
    m.isEnPassant = false ∧ m.isCastleMove = false ∧
    charAt m.movedPiece 1 ≠ 'P' ∧ charAt m.capturedPiece 1 ≠ 'P'

/-- States reachable from the fresh game through the engine's own
operations: legal-move queries, application of a move from the query's
result (as `ChessMain` does), and undos. -/
inductive Reach : ChessGame → Prop where
  | init : Reach initialGame
  | query (s : ChessGame) : Reach s → Reach (getValidMovesAdvanced s).2
  | play (s : ChessGame) (m : Move) : Reach s → m ∈ (getValidMovesAdvanced s).1 →
      Reach (processMove (getValidMovesAdvanced s).2 m)
  | undo (s : ChessGame) : Reach s → Reach (undoMove s)

/-! ### Helper lemmas -/

theorem lgetN_mem {α : Type} {d : α} {l : List α} {n : Nat} (h : n < l.length) :
    lgetN d l n ∈ l := by
  induction l generalizing n with
  | nil => simp at h
  | cons a t ih =>
    cases n with
    | zero => simp [lgetN]
    | succ n =>
      simp only [lgetN]
      exact List.mem_cons_of_mem _ (ih (by simpa using h))

/-- A `processMove` appends the move to the move log. -/
theorem processMove_moveLog (s : ChessGame) (m : Move) :
    (processMove s m).moveLog = s.moveLog ++ [m] := by
  simp [processMove, apply_ite ChessGame.moveLog, apply_ite ChessGame.ChessBoard]

/-- A `processMove` leaves the rights unchanged until `updateCastleRights`. -/
theorem processMove_currentCastleRight (s : ChessGame) (m : Move) :
    (processMove s m).currentCastleRight = updateCastleRights s.currentCastleRight m := by
  simp [processMove, apply_ite ChessGame.currentCastleRight, apply_ite ChessGame.ChessBoard]

/-- A `processMove` pushes the updated rights onto the rights log. -/
theorem processMove_castleRightsLog (s : ChessGame) (m : Move) :
    (processMove s m).castleRightsLog =
      s.castleRightsLog ++ [updateCastleRights s.currentCastleRight m] := by
  simp [processMove, apply_ite ChessGame.castleRightsLog, apply_ite ChessGame.currentCastleRight,
    apply_ite ChessGame.ChessBoard]

theorem undoMove_moveLog (s : ChessGame) : (undoMove s).moveLog = s.moveLog.dropLast := by
  rcases eq_or_ne s.moveLog [] with h | h
  · simp [undoMove, h]
  · have hl : ¬s.moveLog.length = 0 := by simpa using h
    simp [undoMove, apply_ite ChessGame.moveLog, apply_ite ChessGame.ChessBoard, hl]

theorem undoMove_castleRightsLog (s : ChessGame) (h : s.moveLog ≠ []) :
    (undoMove s).castleRightsLog = s.castleRightsLog.dropLast := by
  have hl : ¬s.moveLog.length = 0 := by simpa using h
  simp [undoMove, apply_ite ChessGame.castleRightsLog, apply_ite ChessGame.ChessBoard, hl]

theorem reachPU_len (s : ChessGame) (h : ReachPU s) :
    s.castleRightsLog.length = s.moveLog.length + 1 := by
  induction h with
  | init => rfl
  | play s m _ ih =>
    rw [processMove_castleRightsLog, processMove_moveLog]
    simp [ih]
  | undo s _ ih =>
    rcases eq_or_ne s.moveLog [] with h | h
    · have : undoMove s = { s with checkmate := false, stalemate := false } := by
        simp [undoMove, h]
      rw [this]
      simpa using ih
    · have hlen : 1 ≤ s.moveLog.length := by
        cases hc : s.moveLog with
        | nil => exact absurd hc h
        | cons a t => simp [hc]
      rw [undoMove_moveLog, undoMove_castleRightsLog s h]
      simp only [List.length_dropLast]
      omega

theorem undoMove_currentCastleRight (s : ChessGame) (h : s.moveLog ≠ []) :
    (undoMove s).currentCastleRight =
      (s.castleRightsLog.dropLast.getLast?).getD ⟨true, true, true, true⟩ := by
  have hl : ¬s.moveLog.length = 0 := by simpa using h
  simp [undoMove, apply_ite ChessGame.currentCastleRight, apply_ite ChessGame.castleRightsLog,
    apply_ite ChessGame.ChessBoard, hl]

/-- Undoing right after a `processMove` restores the previous castle rights,
provided the top of the rights log agreed with the current rights. -/
theorem undo_processMove_rights (s : ChessGame) (m : Move)
    (h : s.castleRightsLog.getLast? = some s.currentCastleRight) :
    (undoMove (processMove s m)).currentCastleRight = s.currentCastleRight := by
  have hne : (processMove s m).moveLog ≠ [] := by
    rw [processMove_moveLog]; simp
  rw [undoMove_currentCastleRight _ hne, processMove_castleRightsLog]
  simp [h]

/-! ### Claim theorems -/

/-- C4 (corrected): `undoMove` on a state with an empty move log leaves every
field unchanged except that it always resets `checkmate` and `stalemate` to
`false` — those two assignments sit outside the empty-log guard in the
source, so the call is not a complete no-op. -/
theorem c4_undo_empty_log (s : ChessGame) (h : s.moveLog = []) :
    undoMove s = { s with checkmate := false, stalemate := false } := by
  simp [undoMove, h]

/-- C4 counterexample: on a state with an empty move log but `checkmate =
true`, `undoMove` changes the `checkmate` field, so it is not a no-op on
every field as the claim states. -/
theorem c4_undo_empty_log_counterexample :
    ({ initialGame with checkmate := true } : ChessGame).moveLog = [] ∧
    (undoMove { initialGame with checkmate := true }).checkmate ≠
      ({ initialGame with checkmate := true } : ChessGame).checkmate := by
  decide

/-- C4 witness. -/
theorem c4_undo_empty_log_witness :
    initialGame.moveLog = [] ∧
    undoMove initialGame = { initialGame with checkmate := false, stalemate := false } :=
  ⟨rfl, c4_undo_empty_log initialGame rfl⟩

/-- C6 (confirmed): in every state reachable from a fresh game by
`processMove` and `undoMove` calls, the move log is one entry shorter than
the castle-rights log (which is seeded with one initial snapshot). -/
theorem c6_log_lengths (s : ChessGame) (h : ReachPU s) :
    s.moveLog.length = s.castleRightsLog.length - 1 := by
  have := reachPU_len s h
  omega

/-- C6 witness. -/
theorem c6_log_lengths_witness :
    (undoMove (processMove initialGame ⟨2, 7, 1, 7, "WQ", "--", 2177, false, false, false⟩)).moveLog.length =
      (undoMove (processMove initialGame ⟨2, 7, 1, 7, "WQ", "--", 2177, false, false, false⟩)).castleRightsLog.length - 1 :=
  c6_log_lengths _ (ReachPU.undo _ (ReachPU.play _ _ ReachPU.init))

/-- C7 (confirmed): for `Move` values with coordinates in `[0, 8)` (and the
`moveID` that `Move.__init__` computes from them), `Move.__eq__` holds iff
the four coordinates match; the flags and the captured piece play no role. -/
theorem c7_move_equality (m1 m2 : Move) (h1 : MoveWF m1) (h2 : MoveWF m2) :
    moveEq m1 m2 = true ↔
      (m1.startRow = m2.startRow ∧ m1.startColumn = m2.startColumn ∧
       m1.endRow = m2.endRow ∧ m1.endColumn = m2.endColumn) := by
  obtain ⟨a1, b1, c1, d1, e1, f1, g1, i1, hid1⟩ := h1
  obtain ⟨a2, b2, c2, d2, e2, f2, g2, i2, hid2⟩ := h2
  unfold moveEq
  rw [beq_iff_eq, hid1, hid2]
  constructor
  · intro h
    refine ⟨?_, ?_, ?_, ?_⟩ <;> omega
  · rintro ⟨h1, h2, h3, h4⟩
    omega

/-- C7 witness: two moves with the same coordinates but different flags and
captured pieces compare equal. -/
theorem c7_move_equality_witness :
    MoveWF ⟨1, 2, 3, 4, "WP", "--", 1324, true, false, false⟩ ∧
    MoveWF ⟨1, 2, 3, 4, "--", "BQ", 1324, false, true, true⟩ ∧
    moveEq ⟨1, 2, 3, 4, "WP", "--", 1324, true, false, false⟩
      ⟨1, 2, 3, 4, "--", "BQ", 1324, false, true, true⟩ = true :=
  ⟨by decide, by decide,
    (c7_move_equality _ _ (by decide) (by decide)).mpr (by decide)⟩

/-- C8 (confirmed): a king move clears both rights of its colour, a rook move
from its home square clears exactly the corresponding single right, any other
move leaves the rights unchanged, and an immediate `undoMove` restores the
prior rights (given the rights-log top matches the current rights, which
holds in every reachable state). -/
theorem c8_castle_rights_update (s : ChessGame) (m : Move)
    (hlog : s.castleRightsLog.getLast? = some s.currentCastleRight) :
    (m.movedPiece = "WK" →
      (processMove s m).currentCastleRight = { s.currentCastleRight with WKs := false, WQs := false }) ∧
    (m.movedPiece = "BK" →
      (processMove s m).currentCastleRight = { s.currentCastleRight with BKs := false, BQs := false }) ∧
    (m.movedPiece = "WR" → m.startRow = 7 → m.startColumn = 0 →
      (processMove s m).currentCastleRight = { s.currentCastleRight with WQs := false }) ∧
    (m.movedPiece = "WR" → m.startRow = 7 → m.startColumn = 7 →
      (processMove s m).currentCastleRight = { s.currentCastleRight with WKs := false }) ∧
    (m.movedPiece = "BR" → m.startRow = 0 → m.startColumn = 0 →
      (processMove s m).currentCastleRight = { s.currentCastleRight with BQs := false }) ∧
    (m.movedPiece = "BR" → m.startRow = 0 → m.startColumn = 7 →
      (processMove s m).currentCastleRight = { s.currentCastleRight with BKs := false }) ∧
    (m.movedPiece ≠ "WK" → m.movedPiece ≠ "BK" →
      ¬(m.movedPiece = "WR" ∧ m.startRow = 7 ∧ (m.startColumn = 0 ∨ m.startColumn = 7)) →
      ¬(m.movedPiece = "BR" ∧ m.startRow = 0 ∧ (m.startColumn = 0 ∨ m.startColumn = 7)) →
      (processMove s m).currentCastleRight = s.currentCastleRight) ∧
    (undoMove (processMove s m)).currentCastleRight = s.currentCastleRight := by
  have hp := processMove_currentCastleRight s m
  refine ⟨?_, ?_, ?_, ?_, ?_, ?_, ?_, undo_processMove_rights s m hlog⟩
  · intro h; rw [hp]; simp [updateCastleRights, h]
  · intro h; rw [hp]; simp [updateCastleRights, h]
  · intro h h7 h0; rw [hp]; simp [updateCastleRights, h, h7, h0]
  · intro h h7 h0; rw [hp]; simp [updateCastleRights, h, h7, h0]
  · intro h h7 h0; rw [hp]; simp [updateCastleRights, h, h7, h0]
  · intro h h7 h0; rw [hp]; simp [updateCastleRights, h, h7, h0]
  · intro h1 h2 h3 h4
    rw [hp]
    unfold updateCastleRights
    split_ifs <;> simp_all

/-- C8 witness: a white king move from the fresh state clears both white
rights. -/
theorem c8_castle_rights_update_witness :
    (processMove initialGame ⟨2, 3, 2, 4, "WK", "--", 2234, false, false, false⟩).currentCastleRight =
      { initialGame.currentCastleRight with WKs := false, WQs := false } :=
  (c8_castle_rights_update initialGame _ (by decide)).1 (by decide)

/-- C9 counterexample: on the empty move list (the case the spec designates
for the random fallback), `findRandomMove` does not return an element of the
list — `random.randint(0, -1)` raises, modelled here as `none`. -/
theorem c9_random_fallback_counterexample :
    findRandomMove [] 0 = none ∧
    ∀ m : Move, ¬(findRandomMove [] 0 = some m ∧ m ∈ ([] : List Move)) := by
  constructor
  · rfl
  · rintro m ⟨-, h⟩
    simp at h

/-- C9 (corrected): for every non-empty list of moves `findRandomMove`
returns an element of the list; on the empty list it fails instead of
returning anything. -/
theorem c9_random_choice_in_list (l : List Move) (seed : Nat) (h : l ≠ []) :
    ∃ m, findRandomMove l seed = some m ∧ m ∈ l := by
  have hlen : 0 < l.length := List.length_pos.mpr h
  have hpos : (0 : Int) < (l.length : Int) := by exact_mod_cast hlen
  have hi0 : (0 : Int) ≤ (seed : Int) % (l.length : Int) := Int.emod_nonneg _ (by omega)
  have hilt : (seed : Int) % (l.length : Int) < (l.length : Int) := Int.emod_lt_of_pos _ hpos
  have hfr : findRandomMove l seed = some (lget default l ((seed : Int) % (l.length : Int))) := by
    unfold findRandomMove pyRandint
    rw [if_neg (by omega)]
    norm_num
  refine ⟨_, hfr, ?_⟩
  unfold lget
  apply lgetN_mem
  unfold pyIdx
  rw [if_pos hi0]
  omega

/-- C9 witness. -/
theorem c9_random_choice_in_list_witness :
    ([⟨2, 7, 1, 7, "WQ", "--", 2177, false, false, false⟩] : List Move) ≠ [] ∧
    ∃ m, findRandomMove [⟨2, 7, 1, 7, "WQ", "--", 2177, false, false, false⟩] 5 = some m ∧
      m ∈ ([⟨2, 7, 1, 7, "WQ", "--", 2177, false, false, false⟩] : List Move) :=
  ⟨by simp, c9_random_choice_in_list _ 5 (by simp)⟩

set_option maxHeartbeats 1000000 in
/-- C2 (code_bug): `getValidMovesAdvanced` never writes the
`checkmate`/`stalemate` flags.  On the spec's back-rank-mate fixture the
returned list is empty and the side to move is in check, yet both flags are
still `false` after the call (only the never-called `getValidMovesNaive`
sets them, while `ChessMain` reads them right after calling the advanced
query). -/
theorem c2_advanced_query_never_sets_flags :
    (getValidMovesAdvanced mateGame).1 = [] ∧
    (checkForPinsAndChecks mateGame).1 = true ∧
    (getValidMovesAdvanced mateGame).2.checkmate = false ∧
    (getValidMovesAdvanced mateGame).2.stalemate = false := by
  decide

set_option maxHeartbeats 1000000 in
/-- C3 (code_bug): the freshly constructed game does have White to move, all
four castle rights and empty history, but its board is the three-piece test
fixture (the standard starting position is commented out in `__init__`), the
cached white king location (7,4) does not even hold a king, and the
legal-move query returns 22 moves, not 20. -/
theorem c3_fresh_game_not_standard :
    initialGame.whiteToMove = true ∧
    initialGame.currentCastleRight = ⟨true, true, true, true⟩ ∧
    initialGame.moveLog = [] ∧
    initialGame.ChessBoard ≠ standardBoard ∧
    bget initialGame.ChessBoard 7 4 ≠ "WK" ∧
    bget initialGame.ChessBoard 2 3 = "WK" ∧
    (getValidMovesAdvanced initialGame).1.length = 22 := by
  decide

theorem foldl_induction {α β : Type} (l : List α) (init : β) (f : β → α → β) (P : β → Prop)
    (h0 : P init) (hstep : ∀ b a, a ∈ l → P b → P (f b a)) : P (l.foldl f init) := by
  induction l generalizing init with
  | nil => exact h0
  | cons x xs ih =>
    exact ih (f init x) (hstep init x (by simp) h0)
      (fun b a ha hb => hstep b a (by simp [ha]) hb)

/-- `getPawnMoves` changes only `pins`. -/
theorem getPawnMoves_state (gs : ChessGame) (row column : Int) :
    ∃ p, (getPawnMoves gs row column).2 = { gs with pins := p } :=
  ⟨_, rfl⟩

/-- `getRookMoves` changes only `pins`. -/
theorem getRookMoves_state (gs : ChessGame) (row column : Int) :
    ∃ p, (getRookMoves gs row column).2 = { gs with pins := p } :=
  ⟨_, rfl⟩

/-- `getBishopMoves` changes only `pins`. -/
theorem getBishopMoves_state (gs : ChessGame) (row column : Int) :
    ∃ p, (getBishopMoves gs row column).2 = { gs with pins := p } :=
  ⟨_, rfl⟩

/-- `getKnightMoves` changes only `pins`. -/
theorem getKnightMoves_state (gs : ChessGame) (row column : Int) :
    ∃ p, (getKnightMoves gs row column).2 = { gs with pins := p } :=
  ⟨_, rfl⟩

/-- `getQueenMoves` changes only `pins`. -/
theorem getQueenMoves_state (gs : ChessGame) (row column : Int) :
    ∃ p, (getQueenMoves gs row column).2 = { gs with pins := p } := by
  obtain ⟨p1, h1⟩ := getRookMoves_state gs row column
  obtain ⟨p2, h2⟩ := getBishopMoves_state (getRookMoves gs row column).2 row column
  refine ⟨p2, ?_⟩
  show (getBishopMoves (getRookMoves gs row column).2 row column).2 = _
  rw [h2, h1]

/-- `getKingMoves` changes only the king-location caches: the moving side's
cache ends either unchanged or at the scanned square `(row, column)`. -/
theorem getKingMoves_state (gs : ChessGame) (row column : Int) :
    ∃ wk bk, (getKingMoves gs row column).2 = { gs with WK_Location := wk, BK_Location := bk } ∧
      (wk = gs.WK_Location ∨ (wk = (row, column) ∧ gs.whiteToMove = true)) ∧
      (bk = gs.BK_Location ∨ (bk = (row, column) ∧ gs.whiteToMove = false)) := by
  unfold getKingMoves
  refine foldl_induction kingDirections ([], gs) _
    (fun acc => ∃ wk bk, acc.2 = { gs with WK_Location := wk, BK_Location := bk } ∧
      (wk = gs.WK_Location ∨ (wk = (row, column) ∧ gs.whiteToMove = true)) ∧
      (bk = gs.BK_Location ∨ (bk = (row, column) ∧ gs.whiteToMove = false))) ?_ ?_
  · exact ⟨gs.WK_Location, gs.BK_Location, rfl, Or.inl rfl, Or.inl rfl⟩
  · rintro ⟨ms, t⟩ d - ⟨wk, bk, ht, hwk, hbk⟩
    dsimp only
    by_cases hob : onBoard (row + d.1) (column + d.2)
    · rw [if_pos hob]
      by_cases hally : charAt (bget t.ChessBoard (row + d.1) (column + d.2)) 0 ≠
          (if gs.whiteToMove = true then 'W' else 'B')
      · rw [if_pos hally]
        cases hw : gs.whiteToMove with
        | false =>
          refine ⟨wk, (row, column), ?_, ?_, Or.inr ⟨rfl, rfl⟩⟩
          · subst ht
            simp [hw]
          · rcases hwk with h | ⟨h1, h2⟩
            · exact Or.inl h
            · rw [hw] at h2
              exact absurd h2 (by decide)
        | true =>
          refine ⟨(row, column), bk, ?_, Or.inr ⟨rfl, rfl⟩, ?_⟩
          · subst ht
            simp [hw]
          · rcases hbk with h | ⟨h1, h2⟩
            · exact Or.inl h
            · rw [hw] at h2
              exact absurd h2 (by decide)
      · rw [if_neg hally]
        exact ⟨wk, bk, ht, hwk, hbk⟩
    · rw [if_neg hob]
      exact ⟨wk, bk, ht, hwk, hbk⟩

/-- On a well-formed board whose moving side's king cache is consistent, the
full scan `getAllPossibleMoves` changes only `pins`: every king probe
restores the cache to the square the king was scanned at, which is the
cached square. -/
theorem getAllPossibleMoves_state (gs : ChessGame) (hwf : BoardWF gs.ChessBoard)
    (hk : KingConsistent gs) :
    ∃ p, (getAllPossibleMoves gs).2 = { gs with pins := p } := by
  unfold getAllPossibleMoves
  refine foldl_induction _ ([], gs) _ (fun acc => ∃ p, acc.2 = { gs with pins := p })
    ⟨gs.pins, rfl⟩ ?_
  rintro ⟨ms, t⟩ rc hrc ⟨p, ht⟩
  dsimp only at ht
  rw [List.mem_flatMap] at hrc
  obtain ⟨r, hr, hrc2⟩ := hrc
  rw [List.mem_map] at hrc2
  obtain ⟨c, hc, rfl⟩ := hrc2
  rw [List.mem_range] at hr hc
  have hr8 : r < 8 := by rw [hwf.1] at hr; exact hr
  have hc8 : c < 8 := by
    rw [hwf.2 _ (lgetN_mem hr)] at hc; exact hc
  have htb : t.ChessBoard = gs.ChessBoard := by rw [ht]
  have htw : t.whiteToMove = gs.whiteToMove := by rw [ht]
  dsimp only
  by_cases hturn : (charAt (bget t.ChessBoard ↑r ↑c) 0 = 'W' ∧ t.whiteToMove = true) ∨
      (charAt (bget t.ChessBoard ↑r ↑c) 0 = 'B' ∧ t.whiteToMove = false)
  · rw [if_pos hturn]
    by_cases hP : charAt (bget t.ChessBoard ↑r ↑c) 1 = 'P'
    · rw [if_pos hP]
      obtain ⟨p', hp'⟩ := getPawnMoves_state t ↑r ↑c
      exact ⟨p', by dsimp only; rw [hp', ht]⟩
    · rw [if_neg hP]
      by_cases hR : charAt (bget t.ChessBoard ↑r ↑c) 1 = 'R'
      · rw [if_pos hR]
        obtain ⟨p', hp'⟩ := getRookMoves_state t ↑r ↑c
        exact ⟨p', by dsimp only; rw [hp', ht]⟩
      · rw [if_neg hR]
        by_cases hN : charAt (bget t.ChessBoard ↑r ↑c) 1 = 'N'
        · rw [if_pos hN]
          obtain ⟨p', hp'⟩ := getKnightMoves_state t ↑r ↑c
          exact ⟨p', by dsimp only; rw [hp', ht]⟩
        · rw [if_neg hN]
          by_cases hB : charAt (bget t.ChessBoard ↑r ↑c) 1 = 'B'
          · rw [if_pos hB]
            obtain ⟨p', hp'⟩ := getBishopMoves_state t ↑r ↑c
            exact ⟨p', by dsimp only; rw [hp', ht]⟩
          · rw [if_neg hB]
            by_cases hQ : charAt (bget t.ChessBoard ↑r ↑c) 1 = 'Q'
            · rw [if_pos hQ]
              obtain ⟨p', hp'⟩ := getQueenMoves_state t ↑r ↑c
              exact ⟨p', by dsimp only; rw [hp', ht]⟩
            · rw [if_neg hQ]
              by_cases hK : charAt (bget t.ChessBoard ↑r ↑c) 1 = 'K'
              · rw [if_pos hK]
                obtain ⟨wk, bk, hst, hwk, hbk⟩ := getKingMoves_state t ↑r ↑c
                cases hw : gs.whiteToMove with
                | true =>
                  have hcons : WKCons gs := by
                    unfold KingConsistent at hk
                    rw [hw] at hk
                    simpa using hk
                  have hturnW : charAt (bget t.ChessBoard ↑r ↑c) 0 = 'W' := by
                    rcases hturn with ⟨h1, -⟩ | ⟨-, h2⟩
                    · exact h1
                    · rw [htw, hw] at h2; exact absurd h2 (by decide)
                  have hloc : ((r : Int), (c : Int)) = gs.WK_Location := by
                    refine (hcons r hr8 c hc8).mp ⟨?_, ?_⟩
                    · rw [← htb]; exact hturnW
                    · rw [← htb]; exact hK
                  have hwkEq : wk = gs.WK_Location := by
                    rcases hwk with h | ⟨h1, -⟩
                    · rw [h, ht]
                    · rw [h1]; exact hloc
                  have hbkEq : bk = gs.BK_Location := by
                    rcases hbk with h | ⟨-, h2⟩
                    · rw [h, ht]
                    · rw [htw, hw] at h2; exact absurd h2 (by decide)
                  refine ⟨p, ?_⟩
                  dsimp only
                  rw [hst, hwkEq, hbkEq, ht]
                  simp [hw]
                | false =>
                  have hcons : BKCons gs := by
                    unfold KingConsistent at hk
                    rw [hw] at hk
                    simpa using hk
                  have hturnB : charAt (bget t.ChessBoard ↑r ↑c) 0 = 'B' := by
                    rcases hturn with ⟨-, h2⟩ | ⟨h1, -⟩
                    · rw [htw, hw] at h2; exact absurd h2 (by decide)
                    · exact h1
                  have hloc : ((r : Int), (c : Int)) = gs.BK_Location := by
                    refine (hcons r hr8 c hc8).mp ⟨?_, ?_⟩
                    · rw [← htb]; exact hturnB
                    · rw [← htb]; exact hK
                  have hwkEq : wk = gs.WK_Location := by
                    rcases hwk with h | ⟨-, h2⟩
                    · rw [h, ht]
                    · rw [htw, hw] at h2; exact absurd h2 (by decide)
                  have hbkEq : bk = gs.BK_Location := by
                    rcases hbk with h | ⟨h1, -⟩
                    · rw [h, ht]
                    · rw [h1]; exact hloc
                  refine ⟨p, ?_⟩
                  dsimp only
                  rw [hst, hwkEq, hbkEq, ht]
                  simp [hw]
              · rw [if_neg hK]
                exact ⟨p, ht⟩
  · rw [if_neg hturn]
    exact ⟨p, ht⟩

/-- Calling `getKingMoves` at the cached king square of the side to move
(as the double-check branch of `getValidMovesAdvanced` does) restores the
cache exactly, since the probe restores it to the call coordinates. -/
theorem getKingMoves_at_cache (gs : ChessGame) :
    (getKingMoves gs (if gs.whiteToMove = true then gs.WK_Location.1 else gs.BK_Location.1)
      (if gs.whiteToMove = true then gs.WK_Location.2 else gs.BK_Location.2)).2 = gs := by
  obtain ⟨wk, bk, hst, hwk, hbk⟩ := getKingMoves_state gs _ _
  rw [hst]
  cases hw : gs.whiteToMove with
  | true =>
    have hwkEq : wk = gs.WK_Location := by
      rcases hwk with h | ⟨h1, -⟩
      · exact h
      · rw [h1]; simp [hw]
    have hbkEq : bk = gs.BK_Location := by
      rcases hbk with h | ⟨-, h2⟩
      · exact h
      · rw [hw] at h2; exact absurd h2 (by decide)
    rw [hwkEq, hbkEq, ← hw]
  | false =>
    have hwkEq : wk = gs.WK_Location := by
      rcases hwk with h | ⟨-, h2⟩
      · exact h
      · rw [hw] at h2; exact absurd h2 (by decide)
    have hbkEq : bk = gs.BK_Location := by
      rcases hbk with h | ⟨h1, -⟩
      · exact h
      · rw [h1]; simp [hw]
    rw [hwkEq, hbkEq, ← hw]

/-- On a well-formed board with a consistent cache for the moving side's
king, `getValidMovesAdvanced` changes at most the transient `pins`,
`checks` and `inCheckByPiece` fields. -/
theorem advanced_state (s : ChessGame) (hwf : BoardWF s.ChessBoard) (hk : KingConsistent s) :
    ∃ p c ic, (getValidMovesAdvanced s).2 =
      { s with pins := p, checks := c, inCheckByPiece := ic } := by
  have hk2 : KingConsistent { s with inCheckByPiece := (checkForPinsAndChecks s).1, pins := (checkForPinsAndChecks s).2.1, checks := (checkForPinsAndChecks s).2.2 } := hk
  have hwf2 : BoardWF ({ s with inCheckByPiece := (checkForPinsAndChecks s).1, pins := (checkForPinsAndChecks s).2.1, checks := (checkForPinsAndChecks s).2.2 } : ChessGame).ChessBoard := hwf
  unfold getValidMovesAdvanced
  dsimp only
  by_cases hc1 : (checkForPinsAndChecks s).1 = true
  · rw [if_pos hc1]
    by_cases hc2 : (checkForPinsAndChecks s).2.2.length = 1
    · rw [if_pos hc2]
      dsimp only
      obtain ⟨p, hp⟩ := getAllPossibleMoves_state _ hwf2 hk2
      exact ⟨p, (checkForPinsAndChecks s).2.2, (checkForPinsAndChecks s).1, by rw [hp]⟩
    · rw [if_neg hc2]
      exact ⟨(checkForPinsAndChecks s).2.1, (checkForPinsAndChecks s).2.2,
        (checkForPinsAndChecks s).1, getKingMoves_at_cache _⟩
  · rw [if_neg hc1]
    obtain ⟨p, hp⟩ := getAllPossibleMoves_state _ hwf2 hk2
    exact ⟨p, (checkForPinsAndChecks s).2.2, (checkForPinsAndChecks s).1, by rw [hp]⟩

set_option maxHeartbeats 1000000 in
/-- C10 counterexample: on the fresh game the cached white king location is
the stale (7, 4) while the white king sits at (2, 3), so the self-check
probe restores the cache to (2, 3), the king's actual square, and the call
mutates `WK_Location`. -/
theorem c10_fresh_game_cache_moves :
    (getValidMovesAdvanced initialGame).2.WK_Location ≠ initialGame.WK_Location := by
  decide

/-- C10 (corrected): on an 8x8 board whose cached king location for the side
to move is consistent with the board, `getValidMovesAdvanced` leaves the
board, side to move, both logs, current castle rights, en-passant square,
both king caches and the terminal flags unchanged; only the transient
`pins`, `checks` and `inCheckByPiece` fields may change. -/
theorem c10_advanced_query_frame (s : ChessGame) (hwf : BoardWF s.ChessBoard)
    (hk : KingConsistent s) :
    (getValidMovesAdvanced s).2.ChessBoard = s.ChessBoard ∧
    (getValidMovesAdvanced s).2.whiteToMove = s.whiteToMove ∧
    (getValidMovesAdvanced s).2.moveLog = s.moveLog ∧
    (getValidMovesAdvanced s).2.castleRightsLog = s.castleRightsLog ∧
    (getValidMovesAdvanced s).2.currentCastleRight = s.currentCastleRight ∧
    (getValidMovesAdvanced s).2.enPassantPossible = s.enPassantPossible ∧
    (getValidMovesAdvanced s).2.WK_Location = s.WK_Location ∧
    (getValidMovesAdvanced s).2.BK_Location = s.BK_Location ∧
    (getValidMovesAdvanced s).2.checkmate = s.checkmate ∧
    (getValidMovesAdvanced s).2.stalemate = s.stalemate := by
  obtain ⟨p, c, ic, h⟩ := advanced_state s hwf hk
  rw [h]
  exact ⟨rfl, rfl, rfl, rfl, rfl, rfl, rfl, rfl, rfl, rfl⟩

/-- C10 witness: the mate fixture has a consistent white king cache, so the
query leaves all ten fields unchanged there. -/
theorem c10_advanced_query_frame_witness :
    BoardWF mateGame.ChessBoard ∧ KingConsistent mateGame ∧
    (getValidMovesAdvanced mateGame).2.ChessBoard = mateGame.ChessBoard ∧
    (getValidMovesAdvanced mateGame).2.WK_Location = mateGame.WK_Location :=
  ⟨by decide, by decide,
    (c10_advanced_query_frame mateGame (by decide) (by decide)).1,
    (c10_advanced_query_frame mateGame (by decide) (by decide)).2.2.2.2.2.2.1⟩

/-- C5 (confirmed): the truth test on the board cell three files from the
king (`self.ChessBoard[row][column - 3]` used bare) holds for every
two-character cell string, the empty-square marker "--" included, so
queen-side castle emission is decided solely by the emptiness of the two
adjacent files and the two square-under-attack tests: the generation
coincides with the variant that drops the rook test. -/
theorem c5_queenside_rook_test_vacuous (gs : ChessGame) (row column : Int) (moves : List Move)
    (h : (bget gs.ChessBoard row (column - 3)).length = 2) :
    getQueenSideCastleMoves gs row column moves =
      getQueenSideCastleMovesNoRookTest gs row column moves := by
  have hne : bget gs.ChessBoard row (column - 3) ≠ "" := by
    intro he
    rw [he] at h
    simp at h
  have ht : pyTruthy (bget gs.ChessBoard row (column - 3)) = true := by
    simp [pyTruthy, Bool.eq_false_iff, ne_eq, String.isEmpty_iff, hne]
  unfold getQueenSideCastleMoves getQueenSideCastleMovesNoRookTest
  simp only [ht, and_true]

/-- C5 witness: at the fresh state's row 7, king column 4, the cell at
column 1 is the two-character marker "--" and the two generations agree. -/
theorem c5_queenside_rook_test_vacuous_witness :
    (bget initialGame.ChessBoard 7 (4 - 3)).length = 2 ∧
    getQueenSideCastleMoves initialGame 7 4 [] =
      getQueenSideCastleMovesNoRookTest initialGame 7 4 [] :=
  ⟨by decide, c5_queenside_rook_test_vacuous initialGame 7 4 [] (by decide)⟩

/-! ### List and board access lemmas -/

theorem length_lsetN {α : Type} (l : List α) (n : Nat) (v : α) :
    (lsetN l n v).length = l.length := by
  induction l generalizing n with
  | nil => rfl
  | cons a t ih =>
    cases n with
    | zero => rfl
    | succ n => simp [lsetN, ih]

theorem lgetN_lsetN_eq {α : Type} (d : α) (l : List α) (n : Nat) (v : α) (h : n < l.length) :
    lgetN d (lsetN l n v) n = v := by
  induction l generalizing n with
  | nil => simp at h
  | cons a t ih =>
    cases n with
    | zero => rfl
    | succ n => exact ih n (by simpa using h)

theorem lgetN_lsetN_ne {α : Type} (d : α) (l : List α) (n m : Nat) (v : α) (h : m ≠ n) :
    lgetN d (lsetN l n v) m = lgetN d l m := by
  induction l generalizing n m with
  | nil => rfl
  | cons a t ih =>
    cases n with
    | zero =>
      cases m with
      | zero => exact absurd rfl h
      | succ m => rfl
    | succ n =>
      cases m with
      | zero => rfl
      | succ m => exact ih n m (by omega)

theorem lgetN_lsetN_cases {α : Type} (d : α) (l : List α) (n m : Nat) (v : α) :
    lgetN d (lsetN l n v) m = lgetN d l m ∨ (m = n ∧ lgetN d (lsetN l n v) m = v) := by
  by_cases h : m = n
  · subst h
    by_cases hl : m < l.length
    · exact Or.inr ⟨rfl, lgetN_lsetN_eq d l m v hl⟩
    · left
      congr 1
      induction l generalizing m with
      | nil => rfl
      | cons a t ih =>
        cases m with
        | zero => simp at hl
        | succ m => simp [lsetN, ih m (by simpa using hl)]
  · exact Or.inl (lgetN_lsetN_ne d l n m v h)

theorem lgetN_ext {α : Type} (d : α) (l1 l2 : List α) (hl : l1.length = l2.length)
    (h : ∀ i, i < l1.length → lgetN d l1 i = lgetN d l2 i) : l1 = l2 := by
  induction l1 generalizing l2 with
  | nil =>
    cases l2 with
    | nil => rfl
    | cons b t => simp at hl
  | cons a t ih =>
    cases l2 with
    | nil => simp at hl
    | cons b t2 =>
      have h0 : a = b := h 0 (by simp)
      rw [h0]
      have ht : t = t2 :=
        ih t2 (by simpa using hl) (fun i hi => h (i + 1) (by simpa using hi))
      rw [ht]

theorem lsetN_ge {α : Type} (l : List α) (n : Nat) (v : α) (h : l.length ≤ n) :
    lsetN l n v = l := by
  induction l generalizing n with
  | nil => rfl
  | cons a t ih =>
    cases n with
    | zero => simp at h
    | succ n => simp [lsetN, ih n (by simpa using h)]

theorem mem_lsetN {α : Type} (l : List α) (n : Nat) (v : α) :
    ∀ x ∈ lsetN l n v, x = v ∨ x ∈ l := by
  induction l generalizing n with
  | nil => intro x hx; simp [lsetN] at hx
  | cons a t ih =>
    cases n with
    | zero =>
      intro x hx
      rcases List.mem_cons.mp hx with h | h
      · exact Or.inl h
      · exact Or.inr (List.mem_cons_of_mem _ h)
    | succ n =>
      intro x hx
      rcases List.mem_cons.mp hx with h | h
      · exact Or.inr (h ▸ List.mem_cons_self a t)
      · rcases ih n x h with h' | h'
        · exact Or.inl h'
        · exact Or.inr (List.mem_cons_of_mem _ h')

theorem pyIdx_coe (n : Nat) (i : Nat) : pyIdx n ↑i = i := by
  simp [pyIdx]

theorem bget_nat (b : Board) (i j : Nat) : bget b ↑i ↑j = lgetN "" (lgetN [] b i) j := by
  simp [bget, lget, pyIdx_coe]

theorem BoardWF_bset (b : Board) (hwf : BoardWF b) (r c : Int) (v : Cell) :
    BoardWF (bset b r c v) := by
  obtain ⟨hlen, hrow⟩ := hwf
  unfold bset lget
  by_cases hrn : pyIdx b.length r < b.length
  · refine ⟨by simp [length_lsetN, hlen], ?_⟩
    intro row hmem
    rcases mem_lsetN _ _ _ row hmem with h | h
    · rw [h, length_lsetN]
      exact hrow _ (lgetN_mem hrn)
    · exact hrow _ h
  · rw [lsetN_ge _ _ _ (by omega)]
    exact ⟨hlen, hrow⟩

theorem bget_bset_same (b : Board) (hwf : BoardWF b) (r c : Int) (v : Cell) (h : onBoard r c) :
    bget (bset b r c v) r c = v := by
  obtain ⟨h1, h2, h3, h4⟩ := h
  obtain ⟨hlen, hrow⟩ := hwf
  have hrn : pyIdx b.length r = r.toNat := if_pos h1
  have hcnr : r.toNat < b.length := by omega
  have hrowlen : (lgetN [] b r.toNat).length = 8 := hrow _ (lgetN_mem hcnr)
  have hcn : pyIdx 8 c = c.toNat := if_pos h3
  unfold bget bset lget
  simp only [length_lsetN]
  rw [hrn, lgetN_lsetN_eq [] b r.toNat _ hcnr]
  simp only [length_lsetN]
  rw [hrowlen, hcn]
  exact lgetN_lsetN_eq _ _ _ _ (by rw [hrowlen]; omega)

theorem bget_bset_ne (b : Board) (hwf : BoardWF b) (r c r' c' : Int) (v : Cell)
    (h : onBoard r c) (h' : onBoard r' c') (hne : (r', c') ≠ (r, c)) :
    bget (bset b r c v) r' c' = bget b r' c' := by
  obtain ⟨h1, h2, h3, h4⟩ := h
  obtain ⟨h1', h2', h3', h4'⟩ := h'
  obtain ⟨hlen, hrow⟩ := hwf
  have hrn : pyIdx b.length r = r.toNat := if_pos h1
  have hrn' : pyIdx b.length r' = r'.toNat := if_pos h1'
  have hcnr : r.toNat < b.length := by omega
  have hrowlen : (lgetN [] b r.toNat).length = 8 := hrow _ (lgetN_mem hcnr)
  have hcn : pyIdx 8 c = c.toNat := if_pos h3
  have hcn' : pyIdx 8 c' = c'.toNat := if_pos h3'
  unfold bget bset lget
  simp only [length_lsetN]
  rw [hrn, hrn']
  by_cases hr : r'.toNat = r.toNat
  · have hreq : r' = r := by omega
    have hcne : c' ≠ c := fun hc => hne (by rw [hreq, hc])
    rw [hr, lgetN_lsetN_eq [] b r.toNat _ hcnr]
    simp only [length_lsetN]
    rw [hrowlen, hcn, hcn']
    have hres := lgetN_lsetN_ne "" (lgetN [] b r.toNat) c.toNat c'.toNat v (by omega)
    rw [hres]
  · rw [lgetN_lsetN_ne _ _ _ _ _ hr]

theorem bget_bset_cases (b : Board) (r c r' c' : Int) (v : Cell) :
    bget (bset b r c v) r' c' = v ∨ bget (bset b r c v) r' c' = bget b r' c' := by
  unfold bget bset lget
  rw [length_lsetN]
  rcases lgetN_lsetN_cases [] b (pyIdx b.length r) (pyIdx b.length r') _ with h | ⟨heq, h⟩
  · rw [h]
    right
    rfl
  · rw [h, heq, length_lsetN]
    rcases lgetN_lsetN_cases "" (lgetN [] b (pyIdx b.length r))
        (pyIdx (lgetN [] b (pyIdx b.length r)).length c)
        (pyIdx (lgetN [] b (pyIdx b.length r)).length c') v with h2 | ⟨-, h2⟩
    · rw [h2]
      right
      rfl
    · rw [h2]
      left
      rfl

theorem board_ext (b1 b2 : Board) (h1 : BoardWF b1) (h2 : BoardWF b2)
    (h : ∀ i j : Nat, i < 8 → j < 8 → bget b1 ↑i ↑j = bget b2 ↑i ↑j) : b1 = b2 := by
  apply lgetN_ext []
  · rw [h1.1, h2.1]
  · intro i hi
    have hi8 : i < 8 := by rw [h1.1] at hi; exact hi
    apply lgetN_ext ""
    · rw [h1.2 _ (lgetN_mem hi), h2.2 _ (lgetN_mem (by rw [h2.1]; exact hi8))]
    · intro j hj
      have hj8 : j < 8 := by rw [h1.2 _ (lgetN_mem hi)] at hj; exact hj
      have := h i j hi8 hj8
      rwa [bget_nat, bget_nat] at this

theorem noPawns_bget (b : Board) (hnp : noPawns b) (r c : Int) (h : onBoard r c) :
    charAt (bget b r c) 1 ≠ 'P' := by
  obtain ⟨h1, h2, h3, h4⟩ := h
  have := hnp r.toNat (by omega) c.toNat (by omega)
  rwa [Int.toNat_of_nonneg h1, Int.toNat_of_nonneg h3] at this

theorem noPawns_bset (b : Board) (hnp : noPawns b) (r c : Int) (v : Cell)
    (hv : charAt v 1 ≠ 'P') : noPawns (bset b r c v) := by
  intro i hi j hj
  rcases bget_bset_cases b r c ↑i ↑j v with h | h
  · rw [h]; exact hv
  · rw [h]; exact hnp i hi j hj

/-- Applying then undoing a move whose piece snapshots came from the board
writes the original contents back to both squares. -/
theorem process_undo_board (b : Board) (hwf : BoardWF b) (sr sc er ec : Int)
    (h1 : onBoard sr sc) (h2 : onBoard er ec) :
    bset (bset (bset (bset b sr sc "--") er ec (bget b sr sc)) sr sc (bget b sr sc)) er ec
      (bget b er ec) = b := by
  have hwf1 := BoardWF_bset b hwf sr sc "--"
  have hwf2 := BoardWF_bset _ hwf1 er ec (bget b sr sc)
  have hwf3 := BoardWF_bset _ hwf2 sr sc (bget b sr sc)
  have hwf4 := BoardWF_bset _ hwf3 er ec (bget b er ec)
  apply board_ext _ _ hwf4 hwf
  intro i j hi hj
  have hij : onBoard ↑i ↑j := ⟨by omega, by exact_mod_cast hi, by omega, by exact_mod_cast hj⟩
  by_cases hE : ((i : Int), (j : Int)) = (er, ec)
  · rw [Prod.mk.injEq] at hE
    obtain ⟨hEr, hEc⟩ := hE
    subst hEr hEc
    rw [bget_bset_same _ hwf3 _ _ _ h2]
  · rw [bget_bset_ne _ hwf3 _ _ _ _ _ h2 hij hE]
    by_cases hS : ((i : Int), (j : Int)) = (sr, sc)
    · rw [Prod.mk.injEq] at hS
      obtain ⟨hSr, hSc⟩ := hS
      subst hSr hSc
      rw [bget_bset_same _ hwf2 _ _ _ h1]
    · rw [bget_bset_ne _ hwf2 _ _ _ _ _ h1 hij hS]
      rw [bget_bset_ne _ hwf1 _ _ _ _ _ h2 hij hE]
      rw [bget_bset_ne _ hwf _ _ _ _ _ h1 hij hS]

/-! ### Component lemmas for processMove and undoMove -/

theorem processMove_board (s : ChessGame) (m : Move) (hep : m.isEnPassant = false)
    (hpp : m.isPawnPromotion = false) (hcm : m.isCastleMove = false) :
    (processMove s m).ChessBoard =
      bset (bset s.ChessBoard m.startRow m.startColumn "--") m.endRow m.endColumn m.movedPiece := by
  simp [processMove, hep, hpp, hcm, apply_ite ChessGame.ChessBoard]

theorem processMove_whiteToMove (s : ChessGame) (m : Move) :
    (processMove s m).whiteToMove = !s.whiteToMove := by
  simp [processMove, apply_ite ChessGame.whiteToMove, apply_ite ChessGame.ChessBoard]

theorem processMove_ep_none (s : ChessGame) (m : Move) (hP : charAt m.movedPiece 1 ≠ 'P') :
    (processMove s m).enPassantPossible = none := by
  simp [processMove, hP, apply_ite ChessGame.enPassantPossible, apply_ite ChessGame.ChessBoard]

theorem processMove_WK (s : ChessGame) (m : Move) :
    (processMove s m).WK_Location =
      if m.movedPiece = "WK" then (m.endRow, m.endColumn) else s.WK_Location := by
  simp only [processMove, apply_ite ChessGame.WK_Location, apply_ite ChessGame.ChessBoard]
  split_ifs <;> rfl

theorem processMove_BK (s : ChessGame) (m : Move) :
    (processMove s m).BK_Location =
      if m.movedPiece = "BK" then (m.endRow, m.endColumn)
      else s.BK_Location := by
  simp only [processMove, apply_ite ChessGame.BK_Location, apply_ite ChessGame.ChessBoard]
  split_ifs <;> first | rfl | simp_all

theorem undoMove_empty (s : ChessGame) (h : s.moveLog = []) :
    undoMove s = { s with checkmate := false, stalemate := false } := by
  simp [undoMove, h]

theorem undoMove_board (s : ChessGame) (pm : Move) (hpm : s.moveLog.getLast? = some pm)
    (hep : pm.isEnPassant = false) (hcm : pm.isCastleMove = false) :
    (undoMove s).ChessBoard =
      bset (bset s.ChessBoard pm.startRow pm.startColumn pm.movedPiece)
        pm.endRow pm.endColumn pm.capturedPiece := by
  have hne : s.moveLog ≠ [] := fun h => by simp [h] at hpm
  have hl : ¬s.moveLog.length = 0 := by simpa using hne
  simp [undoMove, hl, hpm, hep, hcm, apply_ite ChessGame.ChessBoard]

theorem undoMove_whiteToMove (s : ChessGame) (pm : Move) (hpm : s.moveLog.getLast? = some pm) :
    (undoMove s).whiteToMove = !s.whiteToMove := by
  have hne : s.moveLog ≠ [] := fun h => by simp [h] at hpm
  have hl : ¬s.moveLog.length = 0 := by simpa using hne
  simp [undoMove, hl, hpm, apply_ite ChessGame.whiteToMove, apply_ite ChessGame.ChessBoard]

theorem undoMove_ep (s : ChessGame) (pm : Move) (hpm : s.moveLog.getLast? = some pm)
    (hep : pm.isEnPassant = false) (hP : charAt pm.movedPiece 1 ≠ 'P') :
    (undoMove s).enPassantPossible = s.enPassantPossible := by
  have hne : s.moveLog ≠ [] := fun h => by simp [h] at hpm
  have hl : ¬s.moveLog.length = 0 := by simpa using hne
  simp [undoMove, hl, hpm, hep, hP, apply_ite ChessGame.enPassantPossible,
    apply_ite ChessGame.ChessBoard]

theorem undoMove_WK (s : ChessGame) (pm : Move) (hpm : s.moveLog.getLast? = some pm) :
    (undoMove s).WK_Location =
      if pm.movedPiece = "WK" then (pm.startRow, pm.startColumn) else s.WK_Location := by
  have hne : s.moveLog ≠ [] := fun h => by simp [h] at hpm
  have hl : ¬s.moveLog.length = 0 := by simpa using hne
  simp only [undoMove, hl, if_true, hpm, Option.getD_some, apply_ite ChessGame.WK_Location,
    apply_ite ChessGame.ChessBoard, ite_not, if_false, ne_eq, not_false_eq_true]
  split_ifs <;> rfl

theorem undoMove_BK (s : ChessGame) (pm : Move) (hpm : s.moveLog.getLast? = some pm) :
    (undoMove s).BK_Location =
      if pm.movedPiece = "BK" then (pm.startRow, pm.startColumn) else s.BK_Location := by
  have hne : s.moveLog ≠ [] := fun h => by simp [h] at hpm
  have hl : ¬s.moveLog.length = 0 := by simpa using hne
  simp only [undoMove, hl, if_true, hpm, Option.getD_some, apply_ite ChessGame.BK_Location,
    apply_ite ChessGame.ChessBoard, ite_not, if_false, ne_eq, not_false_eq_true]
  split_ifs <;> first | rfl | simp_all

/-! ### Every advanced-query move is a flag-free board snapshot -/

theorem mkMove_moveFrom (gs : ChessGame) (r c er ec : Int) (h1 : onBoard r c)
    (h2 : onBoard er ec) :
    moveFrom gs.ChessBoard (mkMove (r, c) (er, ec) gs false false false) :=
  ⟨h1, h2, rfl, rfl, rfl, rfl, rfl⟩

theorem listRemoveMove_subset (l : List Move) (x m : Move) (h : m ∈ listRemoveMove l x) :
    m ∈ l := by
  induction l with
  | nil => simp [listRemoveMove] at h
  | cons a t ih =>
    rw [listRemoveMove] at h
    by_cases he : moveEq a x = true
    · rw [if_pos he] at h
      exact List.mem_cons_of_mem _ h
    · rw [if_neg he] at h
      rcases List.mem_cons.mp h with h' | h'
      · exact h' ▸ List.mem_cons_self a t
      · exact List.mem_cons_of_mem _ (ih h')

theorem removeNonBlocking_subset (vs : List (Int × Int)) :
    ∀ n l m, m ∈ removeNonBlocking vs l n → m ∈ l := by
  intro n
  induction n with
  | zero => intro l m h; exact h
  | succ n ih =>
    intro l m h
    rw [removeNonBlocking] at h
    by_cases hc : charAt (lgetN default l n).movedPiece 1 ≠ 'K' ∧
        ¬((lgetN default l n).endRow, (lgetN default l n).endColumn) ∈ vs
    · rw [if_pos hc] at h
      exact listRemoveMove_subset _ _ _ (ih _ _ h)
    · rw [if_neg hc] at h
      exact ih _ _ h

theorem mem_foldl_append {α β : Type} (l : List α) (f : α → List β) (init : List β) (m : β) :
    m ∈ l.foldl (fun acc d => acc ++ f d) init ↔ m ∈ init ∨ ∃ d ∈ l, m ∈ f d := by
  induction l generalizing init with
  | nil => simp
  | cons x xs ih =>
    simp only [List.foldl_cons, ih, List.mem_append, List.mem_cons]
    constructor
    · rintro ((h | h) | ⟨d, hd, hm⟩)
      · exact Or.inl h
      · exact Or.inr ⟨x, Or.inl rfl, h⟩
      · exact Or.inr ⟨d, Or.inr hd, hm⟩
    · rintro (h | ⟨d, (rfl | hd), hm⟩)
      · exact Or.inl (Or.inl h)
      · exact Or.inl (Or.inr hm)
      · exact Or.inr ⟨d, hd, hm⟩

theorem slideRay_ok (gs : ChessGame) (row column : Int) (pinned : Bool)
    (pd : Option (Int × Int)) (ec : Char) (d : Int × Int) (h1 : onBoard row column) :
    ∀ fuel i m, m ∈ slideRay gs row column pinned pd ec d i fuel →
      moveFrom gs.ChessBoard m := by
  intro fuel
  induction fuel with
  | zero => intro i m hm; simp [slideRay] at hm
  | succ n ih =>
    intro i m hm
    rw [slideRay] at hm
    dsimp only at hm
    by_cases hob : onBoard (row + d.1 * i) (column + d.2 * i)
    · rw [if_pos hob] at hm
      by_cases hpin : ¬pinned = true ∨ pd = some d ∨ pd = some (-d.1, -d.2)
      · rw [if_pos hpin] at hm
        by_cases hemp : bget gs.ChessBoard (row + d.1 * i) (column + d.2 * i) = "--"
        · rw [if_pos hemp] at hm
          rcases List.mem_cons.mp hm with h | h
          · exact h ▸ mkMove_moveFrom gs _ _ _ _ h1 hob
          · exact ih _ _ h
        · rw [if_neg hemp] at hm
          by_cases hene : charAt (bget gs.ChessBoard (row + d.1 * i) (column + d.2 * i)) 0 = ec
          · rw [if_pos hene] at hm
            rcases List.mem_cons.mp hm with h | h
            · exact h ▸ mkMove_moveFrom gs _ _ _ _ h1 hob
            · simp at h
          · rw [if_neg hene] at hm
            simp at hm
      · rw [if_neg hpin] at hm
        exact ih _ _ hm
    · rw [if_neg hob] at hm
      simp at hm

theorem getRookMoves_ok (gs : ChessGame) (row column : Int) (h1 : onBoard row column) :
    ∀ m ∈ (getRookMoves gs row column).1, moveFrom gs.ChessBoard m := by
  intro m hm
  unfold getRookMoves at hm
  dsimp only at hm
  rw [mem_foldl_append] at hm
  rcases hm with h | ⟨d, -, hm⟩
  · simp at h
  · exact slideRay_ok _ row column _ _ _ d h1 7 1 m hm

theorem getBishopMoves_ok (gs : ChessGame) (row column : Int) (h1 : onBoard row column) :
    ∀ m ∈ (getBishopMoves gs row column).1, moveFrom gs.ChessBoard m := by
  intro m hm
  unfold getBishopMoves at hm
  dsimp only at hm
  rw [mem_foldl_append] at hm
  rcases hm with h | ⟨d, -, hm⟩
  · simp at h
  · exact slideRay_ok _ row column _ _ _ d h1 7 1 m hm

theorem getQueenMoves_ok (gs : ChessGame) (row column : Int) (h1 : onBoard row column) :
    ∀ m ∈ (getQueenMoves gs row column).1, moveFrom gs.ChessBoard m := by
  intro m hm
  unfold getQueenMoves at hm
  dsimp only at hm
  rcases List.mem_append.mp hm with h | h
  · exact getRookMoves_ok gs row column h1 m h
  · obtain ⟨p, hp⟩ := getRookMoves_state gs row column
    have := getBishopMoves_ok (getRookMoves gs row column).2 row column h1 m h
    rwa [hp] at this

theorem getKnightMoves_ok (gs : ChessGame) (row column : Int) (h1 : onBoard row column) :
    ∀ m ∈ (getKnightMoves gs row column).1, moveFrom gs.ChessBoard m := by
  intro m hm
  unfold getKnightMoves at hm
  dsimp only at hm
  rw [List.mem_filterMap] at hm
  obtain ⟨d, -, hd⟩ := hm
  by_cases hob : onBoard (row + d.1) (column + d.2)
  · rw [if_pos hob] at hd
    split_ifs at hd <;>
      first
        | (rw [Option.some_inj] at hd
           exact hd ▸ mkMove_moveFrom _ _ _ _ _ h1 hob)
        | simp at hd
  · rw [if_neg hob] at hd
    simp at hd

theorem getKingMoves_ok (gs : ChessGame) (row column : Int) (h1 : onBoard row column) :
    ∀ m ∈ (getKingMoves gs row column).1, moveFrom gs.ChessBoard m := by
  unfold getKingMoves
  refine foldl_induction kingDirections ([], gs) _
    (fun acc => (∀ m ∈ acc.1, moveFrom gs.ChessBoard m) ∧ acc.2.ChessBoard = gs.ChessBoard)
    ⟨by intro m hm; simp at hm, rfl⟩ ?_ |>.1
  rintro ⟨ms, t⟩ d - ⟨hms, htb⟩
  dsimp only at hms htb ⊢
  by_cases hob : onBoard (row + d.1) (column + d.2)
  · rw [if_pos hob]
    by_cases hally : charAt (bget t.ChessBoard (row + d.1) (column + d.2)) 0 ≠
        (if gs.whiteToMove = true then 'W' else 'B')
    · rw [if_pos hally]
      refine ⟨?_, ?_⟩
      · intro m hm
        dsimp only at hm
        split_ifs at hm <;>
          first
            | exact hms m hm
            | (rcases List.mem_append.mp hm with h | h
               exacts [hms m h,
                 by rw [List.mem_singleton.mp h, ← htb]
                    exact mkMove_moveFrom _ _ _ _ _ h1 hob])
      · dsimp only
        split_ifs <;> exact htb
    · rw [if_neg hally]
      exact ⟨hms, htb⟩
  · rw [if_neg hob]
    exact ⟨hms, htb⟩

/-- On a well-formed pawn-free board the scan produces only flag-free board
snapshots, and the state changes are confined to `pins` and the king caches,
the latter staying on the board. -/
theorem getAllPossibleMoves_ok (gs : ChessGame) (hwf : BoardWF gs.ChessBoard)
    (hnp : noPawns gs.ChessBoard) :
    (∀ m ∈ (getAllPossibleMoves gs).1, moveFrom gs.ChessBoard m) ∧
    ∃ p wk bk, (getAllPossibleMoves gs).2 = { gs with pins := p, WK_Location := wk, BK_Location := bk } ∧
      (wk = gs.WK_Location ∨ onBoard wk.1 wk.2) ∧ (bk = gs.BK_Location ∨ onBoard bk.1 bk.2) := by
  unfold getAllPossibleMoves
  refine foldl_induction _ ([], gs) _
    (fun acc => (∀ m ∈ acc.1, moveFrom gs.ChessBoard m) ∧
      ∃ p wk bk, acc.2 = { gs with pins := p, WK_Location := wk, BK_Location := bk } ∧
        (wk = gs.WK_Location ∨ onBoard wk.1 wk.2) ∧ (bk = gs.BK_Location ∨ onBoard bk.1 bk.2))
    ⟨by intro m hm; simp at hm, gs.pins, gs.WK_Location, gs.BK_Location, rfl, Or.inl rfl, Or.inl rfl⟩ ?_
  rintro ⟨ms, t⟩ rc hrc ⟨hms, p, wk, bk, ht, hwk, hbk⟩
  dsimp only at hms ht ⊢
  rw [List.mem_flatMap] at hrc
  obtain ⟨r, hr, hrc2⟩ := hrc
  rw [List.mem_map] at hrc2
  obtain ⟨c, hc, rfl⟩ := hrc2
  rw [List.mem_range] at hr hc
  have hr8 : r < 8 := by rw [hwf.1] at hr; exact hr
  have hc8 : c < 8 := by rw [hwf.2 _ (lgetN_mem hr)] at hc; exact hc
  have hobrc : onBoard ↑r ↑c := ⟨by omega, by exact_mod_cast hr8, by omega, by exact_mod_cast hc8⟩
  have htb : t.ChessBoard = gs.ChessBoard := by rw [ht]
  by_cases hturn : (charAt (bget t.ChessBoard ↑r ↑c) 0 = 'W' ∧ t.whiteToMove = true) ∨
      (charAt (bget t.ChessBoard ↑r ↑c) 0 = 'B' ∧ t.whiteToMove = false)
  · rw [if_pos hturn]
    have hnpc : charAt (bget t.ChessBoard ↑r ↑c) 1 ≠ 'P' := by
      rw [htb]; exact noPawns_bget _ hnp _ _ hobrc
    rw [if_neg hnpc]
    by_cases hR : charAt (bget t.ChessBoard ↑r ↑c) 1 = 'R'
    · rw [if_pos hR]
      obtain ⟨p', hp'⟩ := getRookMoves_state t ↑r ↑c
      refine ⟨?_, p', wk, bk, by dsimp only; rw [hp', ht], hwk, hbk⟩
      intro m hm
      dsimp only at hm
      rcases List.mem_append.mp hm with h | h
      · exact hms m h
      · have := getRookMoves_ok t ↑r ↑c hobrc m h
        rwa [htb] at this
    · rw [if_neg hR]
      by_cases hN : charAt (bget t.ChessBoard ↑r ↑c) 1 = 'N'
      · rw [if_pos hN]
        obtain ⟨p', hp'⟩ := getKnightMoves_state t ↑r ↑c
        refine ⟨?_, p', wk, bk, by dsimp only; rw [hp', ht], hwk, hbk⟩
        intro m hm
        dsimp only at hm
        rcases List.mem_append.mp hm with h | h
        · exact hms m h
        · have := getKnightMoves_ok t ↑r ↑c hobrc m h
          rwa [htb] at this
      · rw [if_neg hN]
        by_cases hB : charAt (bget t.ChessBoard ↑r ↑c) 1 = 'B'
        · rw [if_pos hB]
          obtain ⟨p', hp'⟩ := getBishopMoves_state t ↑r ↑c
          refine ⟨?_, p', wk, bk, by dsimp only; rw [hp', ht], hwk, hbk⟩
          intro m hm
          dsimp only at hm
          rcases List.mem_append.mp hm with h | h
          · exact hms m h
          · have := getBishopMoves_ok t ↑r ↑c hobrc m h
            rwa [htb] at this
        · rw [if_neg hB]
          by_cases hQ : charAt (bget t.ChessBoard ↑r ↑c) 1 = 'Q'
          · rw [if_pos hQ]
            obtain ⟨p', hp'⟩ := getQueenMoves_state t ↑r ↑c
            refine ⟨?_, p', wk, bk, by dsimp only; rw [hp', ht], hwk, hbk⟩
            intro m hm
            dsimp only at hm
            rcases List.mem_append.mp hm with h | h
            · exact hms m h
            · have := getQueenMoves_ok t ↑r ↑c hobrc m h
              rwa [htb] at this
          · rw [if_neg hQ]
            by_cases hK : charAt (bget t.ChessBoard ↑r ↑c) 1 = 'K'
            · rw [if_pos hK]
              obtain ⟨wk', bk', hst, hwk', hbk'⟩ := getKingMoves_state t ↑r ↑c
              refine ⟨?_, p, wk', bk', ?_, ?_, ?_⟩
              · intro m hm
                dsimp only at hm
                rcases List.mem_append.mp hm with h | h
                · exact hms m h
                · have := getKingMoves_ok t ↑r ↑c hobrc m h
                  rwa [htb] at this
              · dsimp only
                rw [hst, ht]
              · rcases hwk' with h | ⟨h, -⟩
                · rw [ht] at h
                  exact h ▸ hwk
                · exact Or.inr (h ▸ hobrc)
              · rcases hbk' with h | ⟨h, -⟩
                · rw [ht] at h
                  exact h ▸ hbk
                · exact Or.inr (h ▸ hobrc)
            · rw [if_neg hK]
              exact ⟨hms, p, wk, bk, ht, hwk, hbk⟩
  · rw [if_neg hturn]
    exact ⟨hms, p, wk, bk, ht, hwk, hbk⟩

set_option maxHeartbeats 2000000 in
/-- Every move returned by the advanced query on a well-formed pawn-free
state with on-board king caches is a flag-free snapshot of the board. -/
theorem advanced_moves_ok (s : ChessGame) (hwf : BoardWF s.ChessBoard)
    (hnp : noPawns s.ChessBoard) (hwkR : onBoard s.WK_Location.1 s.WK_Location.2)
    (hbkR : onBoard s.BK_Location.1 s.BK_Location.2) :
    ∀ m ∈ (getValidMovesAdvanced s).1, moveFrom s.ChessBoard m := by
  have hwf2 : BoardWF ({ s with inCheckByPiece := (checkForPinsAndChecks s).1, pins := (checkForPinsAndChecks s).2.1, checks := (checkForPinsAndChecks s).2.2 } : ChessGame).ChessBoard := hwf
  have hnp2 : noPawns ({ s with inCheckByPiece := (checkForPinsAndChecks s).1, pins := (checkForPinsAndChecks s).2.1, checks := (checkForPinsAndChecks s).2.2 } : ChessGame).ChessBoard := hnp
  intro m hm
  unfold getValidMovesAdvanced at hm
  dsimp only at hm
  by_cases hc1 : (checkForPinsAndChecks s).1 = true
  · rw [if_pos hc1] at hm
    by_cases hc2 : (checkForPinsAndChecks s).2.2.length = 1
    · rw [if_pos hc2] at hm
      dsimp only at hm
      have hsub := removeNonBlocking_subset _ _ _ _ hm
      exact (getAllPossibleMoves_ok { s with inCheckByPiece := (checkForPinsAndChecks s).1, pins := (checkForPinsAndChecks s).2.1, checks := (checkForPinsAndChecks s).2.2 } hwf2 hnp2).1 m hsub
    · rw [if_neg hc2] at hm
      have hob : onBoard (if s.whiteToMove = true then s.WK_Location.1 else s.BK_Location.1)
          (if s.whiteToMove = true then s.WK_Location.2 else s.BK_Location.2) := by
        by_cases h : s.whiteToMove = true
        · rw [if_pos h, if_pos h]; exact hwkR
        · rw [if_neg h, if_neg h]; exact hbkR
      exact getKingMoves_ok { s with inCheckByPiece := (checkForPinsAndChecks s).1, pins := (checkForPinsAndChecks s).2.1, checks := (checkForPinsAndChecks s).2.2 } (if s.whiteToMove = true then s.WK_Location.1 else s.BK_Location.1) (if s.whiteToMove = true then s.WK_Location.2 else s.BK_Location.2) hob m hm
  · rw [if_neg hc1] at hm
    exact (getAllPossibleMoves_ok { s with inCheckByPiece := (checkForPinsAndChecks s).1, pins := (checkForPinsAndChecks s).2.1, checks := (checkForPinsAndChecks s).2.2 } hwf2 hnp2).1 m hm

set_option maxHeartbeats 2000000 in
/-- State effect of the advanced query on any well-formed pawn-free state:
only the three transient fields and the king caches can change, and the
caches stay on the board. -/
theorem advanced_state_general (s : ChessGame) (hwf : BoardWF s.ChessBoard)
    (hnp : noPawns s.ChessBoard) (hwkR : onBoard s.WK_Location.1 s.WK_Location.2)
    (hbkR : onBoard s.BK_Location.1 s.BK_Location.2) :
    ∃ p c ic wk bk, (getValidMovesAdvanced s).2 =
      { s with pins := p, checks := c, inCheckByPiece := ic, WK_Location := wk, BK_Location := bk } ∧
      onBoard wk.1 wk.2 ∧ onBoard bk.1 bk.2 := by
  have hwf2 : BoardWF ({ s with inCheckByPiece := (checkForPinsAndChecks s).1, pins := (checkForPinsAndChecks s).2.1, checks := (checkForPinsAndChecks s).2.2 } : ChessGame).ChessBoard := hwf
  have hnp2 : noPawns ({ s with inCheckByPiece := (checkForPinsAndChecks s).1, pins := (checkForPinsAndChecks s).2.1, checks := (checkForPinsAndChecks s).2.2 } : ChessGame).ChessBoard := hnp
  unfold getValidMovesAdvanced
  dsimp only
  by_cases hc1 : (checkForPinsAndChecks s).1 = true
  · rw [if_pos hc1]
    by_cases hc2 : (checkForPinsAndChecks s).2.2.length = 1
    · rw [if_pos hc2]
      dsimp only
      obtain ⟨-, p, wk, bk, hst, hwk, hbk⟩ := getAllPossibleMoves_ok { s with inCheckByPiece := (checkForPinsAndChecks s).1, pins := (checkForPinsAndChecks s).2.1, checks := (checkForPinsAndChecks s).2.2 } hwf2 hnp2
      refine ⟨p, (checkForPinsAndChecks s).2.2, (checkForPinsAndChecks s).1, wk, bk, by rw [hst], ?_, ?_⟩
      · rcases hwk with h | h
        · rw [h]; exact hwkR
        · exact h
      · rcases hbk with h | h
        · rw [h]; exact hbkR
        · exact h
    · rw [if_neg hc2]
      exact ⟨(checkForPinsAndChecks s).2.1, (checkForPinsAndChecks s).2.2,
        (checkForPinsAndChecks s).1, s.WK_Location, s.BK_Location,
        getKingMoves_at_cache { s with inCheckByPiece := (checkForPinsAndChecks s).1, pins := (checkForPinsAndChecks s).2.1, checks := (checkForPinsAndChecks s).2.2 }, hwkR, hbkR⟩
  · rw [if_neg hc1]
    obtain ⟨-, p, wk, bk, hst, hwk, hbk⟩ := getAllPossibleMoves_ok { s with inCheckByPiece := (checkForPinsAndChecks s).1, pins := (checkForPinsAndChecks s).2.1, checks := (checkForPinsAndChecks s).2.2 } hwf2 hnp2
    refine ⟨p, (checkForPinsAndChecks s).2.2, (checkForPinsAndChecks s).1, wk, bk, by rw [hst], ?_, ?_⟩
    · rcases hwk with h | h
      · rw [h]; exact hwkR
      · exact h
    · rcases hbk with h | h
      · rw [h]; exact hbkR
      · exact h

/-! ### The reachability invariant -/

theorem getLast?_getD_of_ne_nil {α : Type} (l : List α) (d : α) (h : l ≠ []) :
    l.getLast? = some (l.getLast?.getD d) := by
  cases hl : l.getLast? with
  | none => exact absurd (List.getLast?_eq_none_iff.mp hl) h
  | some a => rfl

theorem inv_init : EngineInv initialGame := by
  refine ⟨by decide, by decide, rfl, rfl, by decide, by decide, by decide, ?_⟩
  intro m hm
  simp [initialGame] at hm

theorem inv_query (s : ChessGame) (hI : EngineInv s) : EngineInv (getValidMovesAdvanced s).2 := by
  obtain ⟨p, c, ic, wk, bk, hst, hwkO, hbkO⟩ :=
    advanced_state_general s hI.wf hI.np hI.wkR hI.bkR
  rw [hst]
  exact ⟨hI.wf, hI.np, hI.ep, hI.lens, hI.logTop, hwkO, hbkO, hI.logOk⟩

theorem inv_process (s : ChessGame) (m : Move) (hI : EngineInv s)
    (hm : moveFrom s.ChessBoard m) : EngineInv (processMove s m) := by
  obtain ⟨h1, h2, hmp, hcp, hpp, hep, hcm⟩ := hm
  have hP : charAt m.movedPiece 1 ≠ 'P' := by rw [hmp]; exact noPawns_bget _ hI.np _ _ h1
  have hCP : charAt m.capturedPiece 1 ≠ 'P' := by rw [hcp]; exact noPawns_bget _ hI.np _ _ h2
  have hb := processMove_board s m hep hpp hcm
  refine ⟨?_, ?_, ?_, ?_, ?_, ?_, ?_, ?_⟩
  · rw [hb]
    exact BoardWF_bset _ (BoardWF_bset _ hI.wf _ _ _) _ _ _
  · rw [hb]
    exact noPawns_bset _ (noPawns_bset _ hI.np _ _ _ (by decide)) _ _ _ hP
  · exact processMove_ep_none s m hP
  · rw [processMove_castleRightsLog, processMove_moveLog]
    simp only [List.length_append, List.length_cons, List.length_nil]
    have := hI.lens
    omega
  · rw [processMove_castleRightsLog, processMove_currentCastleRight]
    exact List.getLast?_concat _
  · rw [processMove_WK]
    split_ifs
    · exact h2
    · exact hI.wkR
  · rw [processMove_BK]
    split_ifs
    · exact h2
    · exact hI.bkR
  · rw [processMove_moveLog]
    intro x hx
    rcases List.mem_append.mp hx with h | h
    · exact hI.logOk x h
    · rw [List.mem_singleton.mp h]
      exact ⟨h1, h2, hep, hcm, hP, hCP⟩

theorem inv_undo (s : ChessGame) (hI : EngineInv s) : EngineInv (undoMove s) := by
  rcases eq_or_ne s.moveLog [] with h | h
  · rw [undoMove_empty s h]
    exact ⟨hI.wf, hI.np, hI.ep, hI.lens, hI.logTop, hI.wkR, hI.bkR, hI.logOk⟩
  · cases hlast : s.moveLog.getLast? with
    | none => exact absurd (List.getLast?_eq_none_iff.mp hlast) h
    | some pm =>
      have hpmmem : pm ∈ s.moveLog := by
        obtain ⟨l', hl'⟩ := List.getLast?_eq_some_iff.mp hlast
        rw [hl']
        simp
      obtain ⟨ha1, ha2, haep, hacm, haP, haCP⟩ := hI.logOk pm hpmmem
      have hlen1 : 1 ≤ s.moveLog.length := by
        cases hc : s.moveLog with
        | nil => exact absurd hc h
        | cons a t => simp [hc]
      have hdne : s.castleRightsLog.dropLast ≠ [] := by
        have := hI.lens
        intro hd
        have : s.castleRightsLog.dropLast.length = 0 := by rw [hd]; rfl
        rw [List.length_dropLast] at this
        omega
      refine ⟨?_, ?_, ?_, ?_, ?_, ?_, ?_, ?_⟩
      · rw [undoMove_board s pm hlast haep hacm]
        exact BoardWF_bset _ (BoardWF_bset _ hI.wf _ _ _) _ _ _
      · rw [undoMove_board s pm hlast haep hacm]
        exact noPawns_bset _ (noPawns_bset _ hI.np _ _ _ haP) _ _ _ haCP
      · rw [undoMove_ep s pm hlast haep haP]
        exact hI.ep
      · rw [undoMove_castleRightsLog s h, undoMove_moveLog]
        rw [List.length_dropLast, List.length_dropLast]
        have := hI.lens
        omega
      · rw [undoMove_castleRightsLog s h, undoMove_currentCastleRight s h]
        exact getLast?_getD_of_ne_nil _ _ hdne
      · rw [undoMove_WK s pm hlast]
        split_ifs
        · exact ha1
        · exact hI.wkR
      · rw [undoMove_BK s pm hlast]
        split_ifs
        · exact ha1
        · exact hI.bkR
      · rw [undoMove_moveLog]
        intro x hx
        exact hI.logOk x (List.Sublist.mem hx (List.dropLast_sublist _))

theorem reach_inv (s : ChessGame) (h : Reach s) : EngineInv s := by
  induction h with
  | init => exact inv_init
  | query s _ ih => exact inv_query s ih
  | play s m _ hm ih =>
    have hmf : moveFrom s.ChessBoard m := advanced_moves_ok s ih.wf ih.np ih.wkR ih.bkR m hm
    obtain ⟨p, c, ic, wk, bk, hst, -, -⟩ :=
      advanced_state_general s ih.wf ih.np ih.wkR ih.bkR
    have hb : (getValidMovesAdvanced s).2.ChessBoard = s.ChessBoard := by rw [hst]
    exact inv_process _ m (inv_query s ih) (by rw [hb]; exact hmf)
  | undo s _ ih => exact inv_undo s ih

/-- The core of the round trip: applying a flag-free snapshot move and
undoing it restores the four claimed fields. -/
theorem process_undo_core (s : ChessGame) (m : Move) (hI : EngineInv s)
    (hm : moveFrom s.ChessBoard m) :
    (undoMove (processMove s m)).ChessBoard = s.ChessBoard ∧
    (undoMove (processMove s m)).whiteToMove = s.whiteToMove ∧
    (undoMove (processMove s m)).currentCastleRight = s.currentCastleRight ∧
    (undoMove (processMove s m)).enPassantPossible = s.enPassantPossible := by
  obtain ⟨h1, h2, hmp, hcp, hpp, hep, hcm⟩ := hm
  have hP : charAt m.movedPiece 1 ≠ 'P' := by rw [hmp]; exact noPawns_bget _ hI.np _ _ h1
  have hlast : (processMove s m).moveLog.getLast? = some m := by
    rw [processMove_moveLog]
    exact List.getLast?_concat _
  refine ⟨?_, ?_, undo_processMove_rights s m hI.logTop, ?_⟩
  · rw [undoMove_board _ m hlast hep hcm, processMove_board s m hep hpp hcm, hmp, hcp]
    exact process_undo_board s.ChessBoard hI.wf _ _ _ _ h1 h2
  · rw [undoMove_whiteToMove _ m hlast, processMove_whiteToMove]
    simp
  · rw [undoMove_ep _ m hlast hep hP, processMove_ep_none s m hP, hI.ep]

/-- C1 (confirmed): for any reachable game state and any move in the
legal-move list for that state, `processMove(move)` followed by `undoMove()`
restores the board, `whiteToMove`, `currentCastleRight` and
`enPassantPossible` to exactly their values before `processMove`. -/
theorem c1_apply_undo_round_trip (s : ChessGame) (m : Move) (hs : Reach s)
    (hm : m ∈ (getValidMovesAdvanced s).1) :
    (undoMove (processMove s m)).ChessBoard = s.ChessBoard ∧
    (undoMove (processMove s m)).whiteToMove = s.whiteToMove ∧
    (undoMove (processMove s m)).currentCastleRight = s.currentCastleRight ∧
    (undoMove (processMove s m)).enPassantPossible = s.enPassantPossible := by
  have hI := reach_inv s hs
  exact process_undo_core s m hI (advanced_moves_ok s hI.wf hI.np hI.wkR hI.bkR m hm)

set_option maxHeartbeats 2000000 in
/-- C1 witness: the fresh state is reachable and the queen move h6-h7 is in
its legal-move list; the round trip restores all four fields. -/
theorem c1_apply_undo_round_trip_witness :
    (⟨2, 7, 1, 7, "WQ", "--", 2177, false, false, false⟩ : Move) ∈
      (getValidMovesAdvanced initialGame).1 ∧
    (undoMove (processMove initialGame ⟨2, 7, 1, 7, "WQ", "--", 2177, false, false, false⟩)).ChessBoard =
      initialGame.ChessBoard :=
  ⟨by decide,
    (c1_apply_undo_round_trip initialGame ⟨2, 7, 1, 7, "WQ", "--", 2177, false, false, false⟩
      Reach.init (by decide)).1⟩
